import Mathlib

/-!
Verification of the PXdev chat-gateway pipeline (src/services.js, src/server.js).

JavaScript strings are modelled as `List Char`; `String.prototype.toLowerCase`
and `toUpperCase` are modelled on the ASCII range (every string the claims
touch is ASCII).  JavaScript numbers are modelled as `Rat` (exact rational
arithmetic); the `parseFloat(x) || 0` coercions of the source are modelled by
taking the record fields to already hold the coerced numeric value.
-/

namespace PXdev

/-- ASCII model of the per-character action of `String.prototype.toUpperCase`. -/
def jsUpperChar (c : Char) : Char :=
  if 'a' ≤ c ∧ c ≤ 'z' then Char.ofNat (c.toNat - 32) else c

/-- ASCII model of the per-character action of `String.prototype.toLowerCase`. -/
def jsLowerChar (c : Char) : Char :=
  if 'A' ≤ c ∧ c ≤ 'Z' then Char.ofNat (c.toNat + 32) else c

/-- Model of `s.toUpperCase()`. -/
def upperL (s : List Char) : List Char := s.map jsUpperChar

/-- Model of `s.toLowerCase()`. -/
def lowerL (s : List Char) : List Char := s.map jsLowerChar

/-- `pat` is an initial segment of `s` (the anchored match of a literal
pattern, as a regex engine tests it at one position). -/
def listStartsWith : List Char → List Char → Bool
  | _, [] => true
  | [], _ :: _ => false
  | c :: s, p :: ps => c == p && listStartsWith s ps

/-- Model of `s.includes(pat)`: `pat` occurs contiguously somewhere in `s`. -/
def containsSeg : List Char → List Char → Bool
  | [], pat => listStartsWith [] pat
  | c :: t, pat => listStartsWith (c :: t) pat || containsSeg t pat

/-- Scanner for `jsCountMatches`: when `skip` is positive the position is
still inside the text of the previous match and is passed over. -/
def jsCountAux (pat : List Char) : List Char → Nat → Nat
  | [], _ => 0
  | c :: t, 0 =>
    if listStartsWith (c :: t) pat then 1 + jsCountAux pat t (pat.length - 1)
    else jsCountAux pat t 0
  | _ :: t, k + 1 => jsCountAux pat t k

/-- Model of `(s.match(/pat/g) || []).length` for a literal pattern `pat`:
left-to-right scan, a match consumes its text before scanning resumes. -/
def jsCountMatches (s pat : List Char) : Nat := jsCountAux pat s 0

/-- The characters JavaScript `\s` (and `String.prototype.trim`) accepts,
restricted to the code points the repository's strings can contain. -/
def jsIsWhitespace (c : Char) : Bool :=
  c == ' ' || c == '\t' || c == '\n' || c == '\r' ||
  c == '\x0b' || c == '\x0c' || c == '\u00a0' || c == '\u2028' || c == '\u2029'

/-- JavaScript line terminators (which `.` in a regex never matches). -/
def isLineTerminator (c : Char) : Bool :=
  c == '\n' || c == '\r' || c == '\u2028' || c == '\u2029'

/-- Model of `s.trim()`. -/
def trimL (s : List Char) : List Char :=
  ((s.dropWhile jsIsWhitespace).reverse.dropWhile jsIsWhitespace).reverse

/-- The decimal rendering of a natural number, as the characters of the
JavaScript template interpolation of a nonnegative integer. -/
def natChars (n : Nat) : List Char := (Nat.repr n).data

-- ==================== INTELLIGENT ROUTING (services.js determineSystem) ====

/-- The backend a question is routed to. -/
inductive TargetSystem where
  | aivoice : TargetSystem
  | txql : TargetSystem
deriving DecidableEq, Repr

/-- The `aiVoiceKeywords` list of `determineSystem` (services.js). -/
def aiVoiceKeywords : List (List Char) :=
  ["call", "calls", "voice", "phone", "patient", "appointment",
   "booked", "cancelled", "rescheduled", "upsell", "sentiment",
   "transcript", "audio", "follow-up", "callback", "cost of calls",
   "call duration", "call summary", "call records", "inbound", "outbound",
   "thumbs up", "thumbs down", "voicemail", "license key", "license keys",
   "licensekey", "how many calls", "call count", "calls per license"].map String.data

/-- The `txqlKeywords` list of `determineSystem` (services.js). -/
def txqlKeywords : List (List Char) :=
  ["users", "customers", "orders", "products", "inventory",
   "california", "texas", "state", "city", "address",
   "age", "email", "show me", "count", "list", "find",
   "table", "tables", "database", "records", "rows",
   "filter", "sort", "group by", "join", "select", "transaction"].map String.data

/-- `aiVoiceKeywords.filter(kw => lowerQ.includes(kw)).length` of
`determineSystem`. -/
def aiVoiceScore (question : List Char) : Nat :=
  (aiVoiceKeywords.filter (fun kw => containsSeg (lowerL question) kw)).length

/-- `txqlKeywords.filter(kw => lowerQ.includes(kw)).length` of
`determineSystem`. -/
def txqlScore (question : List Char) : Nat :=
  (txqlKeywords.filter (fun kw => containsSeg (lowerL question) kw)).length

/-- Model of `determineSystem(question)` (services.js): keyword-overlap
scoring; both scores zero defaults to TXQL, otherwise AI Voice exactly on a
strictly greater AI-Voice score. -/
def determineSystem (question : List Char) : TargetSystem :=
  let aiScore := aiVoiceScore question
  let txScore := txqlScore question
  if aiScore == 0 && txScore == 0 then .txql
  else if aiScore > txScore then .aivoice
  else .txql

/-- C8: the route selector picks AI Voice exactly when the AI-Voice keyword
score strictly exceeds the TXQL keyword score; an equal (in particular an
equal nonzero) score and the zero-zero case both route to TXQL. -/
theorem determineSystem_aivoice_iff_strict_majority :
    (∀ q : List Char, determineSystem q = .aivoice ↔ aiVoiceScore q > txqlScore q) ∧
    (∀ q : List Char, aiVoiceScore q = txqlScore q → determineSystem q = .txql) := by
  constructor
  · intro q
    unfold determineSystem
    by_cases hgt : aiVoiceScore q > txqlScore q
    · have h0 : ¬ ((aiVoiceScore q == 0 && txqlScore q == 0) = true) := by
        simp only [Bool.and_eq_true, beq_iff_eq]
        omega
      simp [h0, hgt]
    · by_cases h0 : (aiVoiceScore q == 0 && txqlScore q == 0) = true
      · simp [h0, hgt]
      · simp [h0, hgt]
  · intro q heq
    unfold determineSystem
    have hgt : ¬ aiVoiceScore q > txqlScore q := by omega
    by_cases h0 : (aiVoiceScore q == 0 && txqlScore q == 0) = true
    · simp [h0]
    · simp [h0, hgt]

/-- Witness for C8 at a concrete tie: "call users" scores 1-1 and routes to
TXQL. -/
theorem determineSystem_aivoice_iff_strict_majority_witness :
    aiVoiceScore ("call users".data) = txqlScore ("call users".data) ∧
    determineSystem ("call users".data) = .txql := by
  refine ⟨by decide, ?_⟩
  exact determineSystem_aivoice_iff_strict_majority.2 ("call users".data) (by decide)

-- ==================== LICENSE KEY PREPROCESSOR (services.js) ================

/-- The character class `[A-Za-z0-9+/=]` of the license-key pattern. -/
def isBase64Char (c : Char) : Bool :=
  ('A' ≤ c && c ≤ 'Z') || ('a' ≤ c && c ≤ 'z') || ('0' ≤ c && c ≤ '9') ||
  c == '+' || c == '/' || c == '='

/-- Result shape of `preprocessLicenseKeyFromQuestion` (services.js). -/
structure LicenseKeyPreprocessResult where
  hasLicenseKey : Bool
  licenseKey : Option (List Char)
  actualQuery : List Char
  originalQuestion : List Char
deriving DecidableEq, Repr

/-- The match of `/^In\s+([A-Za-z0-9+\/=]{30,})\s+(.+)$/i` against `question`,
returning the two capture groups on success.  The three character classes
`\s`, `[A-Za-z0-9+/=]` and `.` are pairwise disjoint except that `.` also
matches whitespace other than line terminators, so the only backtracking the
engine performs is the greedy `\s+` before `(.+)` handing at most its final
non-line-terminator character to `(.+)` when nothing follows the whitespace
run. -/
def matchLicenseKeyPattern (question : List Char) : Option (List Char × List Char) :=
  match question with
  | iCh :: nCh :: rest =>
    if (iCh == 'I' || iCh == 'i') && (nCh == 'N' || nCh == 'n') then
      let w1 := rest.takeWhile jsIsWhitespace
      let rest1 := rest.dropWhile jsIsWhitespace
      if w1.isEmpty then none
      else
        let key := rest1.takeWhile isBase64Char
        let rest2 := rest1.dropWhile isBase64Char
        if key.length < 30 then none
        else
          let w2 := rest2.takeWhile jsIsWhitespace
          let rest3 := rest2.dropWhile jsIsWhitespace
          if w2.isEmpty then none
          else if !rest3.isEmpty then
            if rest3.any isLineTerminator then none else some (key, rest3)
          else
            match w2.getLast? with
            | some c =>
              if 2 ≤ w2.length && !(isLineTerminator c) then some (key, [c]) else none
            | none => none
    else none
  | _ => none

/-- Model of `preprocessLicenseKeyFromQuestion(question)` (services.js):
detects the `"In <license-key> <actual-query>"` prefix form and splits the
question; both captures are `.trim()`-ed as in the source. -/
def preprocessLicenseKeyFromQuestion (question : List Char) : LicenseKeyPreprocessResult :=
  match matchLicenseKeyPattern question with
  | some (key, rem) =>
    { hasLicenseKey := true
      licenseKey := some (trimL key)
      actualQuery := trimL rem
      originalQuestion := question }
  | none =>
    { hasLicenseKey := false
      licenseKey := none
      actualQuery := question
      originalQuestion := question }

-- ==================== POST /api/chat ROUTING DATA FLOW (server.js) ==========

/-- The inputs the `POST /api/chat` handler (server.js) hands to the routing
stages for one question. -/
structure ApiChatRouting where
  routeSelectorInput : List Char
  targetSystem : TargetSystem
  intentClassifierInput : Option (List Char)
  entityExtractorInput : Option (List Char)
deriving DecidableEq, Repr

/-- Model of the routing-relevant data flow of the `POST /api/chat` handler
(server.js): `determineSystem` is called on the raw `question` (line 64,
before any license-key preprocessing); only inside the AI-Voice branch is
`preprocessLicenseKeyFromQuestion` applied (line 176), and
`classifyAIVoiceIntent` / `extractCallEntities` then both receive
`processQuery = preprocessed.actualQuery` (lines 194 and 197).  In the TXQL
branch those two classifiers are never called. -/
def apiChatRouting (question : List Char) : ApiChatRouting :=
  match determineSystem question with
  | .aivoice =>
    let preprocessed := preprocessLicenseKeyFromQuestion question
    { routeSelectorInput := question
      targetSystem := .aivoice
      intentClassifierInput := some preprocessed.actualQuery
      entityExtractorInput := some preprocessed.actualQuery }
  | .txql =>
    { routeSelectorInput := question
      targetSystem := .txql
      intentClassifierInput := none
      entityExtractorInput := none }

-- ==================== SCANNING LEMMAS =======================================

theorem takeWhile_append_of_all {p : Char → Bool} :
    ∀ (a b : List Char), a.all p → (a ++ b).takeWhile p = a ++ b.takeWhile p := by
  intro a b h
  induction a with
  | nil => simp
  | cons c t ih =>
    simp only [List.all_cons, Bool.and_eq_true] at h
    simp [List.takeWhile_cons, h.1, ih h.2]

theorem dropWhile_append_of_all {p : Char → Bool} :
    ∀ (a b : List Char), a.all p → (a ++ b).dropWhile p = b.dropWhile p := by
  intro a b h
  induction a with
  | nil => simp
  | cons c t ih =>
    simp only [List.all_cons, Bool.and_eq_true] at h
    simp [List.dropWhile_cons, h.1, ih h.2]

theorem takeWhile_eq_nil_of_head {p : Char → Bool} {c : Char} (t : List Char)
    (h : p c = false) : (c :: t).takeWhile p = [] := by
  simp [List.takeWhile_cons, h]

theorem dropWhile_eq_self_of_head {p : Char → Bool} {c : Char} (t : List Char)
    (h : p c = false) : (c :: t).dropWhile p = c :: t := by
  simp [List.dropWhile_cons, h]

theorem dropWhile_eq_self_of_all {p : Char → Bool} :
    ∀ (a : List Char), a.all (fun c => !p c) → a.dropWhile p = a := by
  intro a h
  induction a with
  | nil => simp
  | cons c t _ =>
    simp only [List.all_cons, Bool.and_eq_true, Bool.not_eq_true'] at h
    simp [List.dropWhile_cons, h.1]

theorem trimL_eq_self_of_all {a : List Char}
    (h : a.all (fun c => !jsIsWhitespace c)) : trimL a = a := by
  unfold trimL
  rw [dropWhile_eq_self_of_all a h, dropWhile_eq_self_of_all a.reverse (by
    simpa using h), List.reverse_reverse]

theorem ws_not_base64 : ∀ c : Char, jsIsWhitespace c = true → isBase64Char c = false := by
  intro c h
  unfold jsIsWhitespace at h
  simp only [Bool.or_eq_true, beq_iff_eq] at h
  rcases h with ((((((((h|h)|h)|h)|h)|h)|h)|h)|h) <;> subst h <;> decide

theorem base64_not_ws : ∀ c : Char, isBase64Char c = true → jsIsWhitespace c = false := by
  intro c h
  cases hw : jsIsWhitespace c with
  | false => rfl
  | true => rw [ws_not_base64 c hw] at h; cases h

-- ==================== C2 ====================================================

/-- The concrete license-key-prefixed question used for C2: a 30-character
base64 key after "In", then the remainder query. -/
def licenseKeyQuestionExample : List Char :=
  ("In AAAAAAAAAAAAAAAAAAAAAAAAAAAAAA how many calls today").data

/-- C2 counterexample: for this license-key-prefixed question the
preprocessor does split off the remainder "how many calls today", but the
backend route selector (`determineSystem`, server.js line 64) receives the
original full question, not the remainder — refuting the claim that the
remainder alone feeds the route selector. -/
theorem apiChatRouting_full_question_to_selector_cex :
    (preprocessLicenseKeyFromQuestion licenseKeyQuestionExample).hasLicenseKey = true ∧
    (preprocessLicenseKeyFromQuestion licenseKeyQuestionExample).actualQuery =
      ("how many calls today").data ∧
    (apiChatRouting licenseKeyQuestionExample).targetSystem = .aivoice ∧
    (apiChatRouting licenseKeyQuestionExample).routeSelectorInput =
      licenseKeyQuestionExample ∧
    licenseKeyQuestionExample ≠ ("how many calls today").data := by
  refine ⟨by decide, by decide, by decide, by decide, by decide⟩

/-- C2 amended: for every question of the form `"In <30+ base64 chars>
<non-empty remainder>"` (remainder free of line terminators, starting with a
non-whitespace character), the preprocessor splits it into the license key
and the trimmed remainder, and the remainder alone is the input handed to the
intent classifier and entity extractor — while the backend route selector
receives the original full question. -/
theorem apiChatRouting_license_key_split_amended
    (ks : List Char) (c0 : Char) (r : List Char)
    (hks : ks.all isBase64Char = true) (hlen : 30 ≤ ks.length)
    (hc0 : jsIsWhitespace c0 = false)
    (hlt : (c0 :: r).all (fun c => !isLineTerminator c) = true) :
    preprocessLicenseKeyFromQuestion ('I' :: 'n' :: ' ' :: (ks ++ ' ' :: c0 :: r)) =
      { hasLicenseKey := true
        licenseKey := some ks
        actualQuery := trimL (c0 :: r)
        originalQuestion := 'I' :: 'n' :: ' ' :: (ks ++ ' ' :: c0 :: r) } ∧
    (apiChatRouting ('I' :: 'n' :: ' ' :: (ks ++ ' ' :: c0 :: r))).routeSelectorInput =
      'I' :: 'n' :: ' ' :: (ks ++ ' ' :: c0 :: r) ∧
    ((apiChatRouting ('I' :: 'n' :: ' ' :: (ks ++ ' ' :: c0 :: r))).targetSystem = .aivoice →
      (apiChatRouting ('I' :: 'n' :: ' ' :: (ks ++ ' ' :: c0 :: r))).intentClassifierInput =
        some (trimL (c0 :: r))) := by
  have hksnw : ks.all (fun c => !jsIsWhitespace c) = true := by
    rw [List.all_eq_true] at hks ⊢
    intro c hc
    simp [base64_not_ws c (hks c hc)]
  obtain ⟨k0, ks', hks0⟩ : ∃ k0 ks', ks = k0 :: ks' := by
    cases ks with
    | nil => simp at hlen
    | cons k0 ks' => exact ⟨k0, ks', rfl⟩
  have hk0b : isBase64Char k0 = true := by
    rw [List.all_eq_true] at hks
    exact hks k0 (by simp [hks0])
  have hk0w : jsIsWhitespace k0 = false := base64_not_ws k0 hk0b
  have hrest : (ks ++ ' ' :: c0 :: r).takeWhile jsIsWhitespace = [] := by
    rw [hks0]
    exact takeWhile_eq_nil_of_head _ hk0w
  have hrest' : (ks ++ ' ' :: c0 :: r).dropWhile jsIsWhitespace = ks ++ ' ' :: c0 :: r := by
    rw [hks0]
    exact dropWhile_eq_self_of_head _ hk0w
  have hkey : (ks ++ ' ' :: c0 :: r).takeWhile isBase64Char = ks := by
    rw [takeWhile_append_of_all ks (' ' :: c0 :: r) hks,
      takeWhile_eq_nil_of_head _ (by decide), List.append_nil]
  have hkey' : (ks ++ ' ' :: c0 :: r).dropWhile isBase64Char = ' ' :: c0 :: r := by
    rw [dropWhile_append_of_all ks (' ' :: c0 :: r) hks,
      dropWhile_eq_self_of_head _ (by decide)]
  have hany : (c0 :: r).any isLineTerminator = false := by
    rw [List.all_eq_true] at hlt
    rw [List.any_eq_false]
    intro c hc
    have := hlt c hc
    simp only [Bool.not_eq_true'] at this
    simp [this]
  have hlen' : (ks.length < 30) = False := eq_false (by omega)
  have hmatch : matchLicenseKeyPattern ('I' :: 'n' :: ' ' :: (ks ++ ' ' :: c0 :: r)) =
      some (ks, c0 :: r) := by
    unfold matchLicenseKeyPattern
    simp only [List.takeWhile_cons, List.dropWhile_cons]
    simp [hrest, hrest', hkey, hkey', hany, hlen', hc0, hlen,
      takeWhile_eq_nil_of_head r hc0, dropWhile_eq_self_of_head r hc0,
      show jsIsWhitespace ' ' = true from by decide]
  have hpre : preprocessLicenseKeyFromQuestion ('I' :: 'n' :: ' ' :: (ks ++ ' ' :: c0 :: r)) =
      { hasLicenseKey := true
        licenseKey := some ks
        actualQuery := trimL (c0 :: r)
        originalQuestion := 'I' :: 'n' :: ' ' :: (ks ++ ' ' :: c0 :: r) } := by
    unfold preprocessLicenseKeyFromQuestion
    rw [hmatch]
    simp [trimL_eq_self_of_all hksnw]
  refine ⟨hpre, ?_, ?_⟩
  · unfold apiChatRouting
    cases determineSystem ('I' :: 'n' :: ' ' :: (ks ++ ' ' :: c0 :: r)) <;> simp
  · intro hsys
    unfold apiChatRouting at hsys ⊢
    cases hd : determineSystem ('I' :: 'n' :: ' ' :: (ks ++ ' ' :: c0 :: r)) with
    | aivoice => simp [hd, hpre]
    | txql => rw [hd] at hsys; simp at hsys

/-- Witness for C2 amended, at the concrete question of
`licenseKeyQuestionExample`. -/
theorem apiChatRouting_license_key_split_amended_witness :
    preprocessLicenseKeyFromQuestion ('I' :: 'n' :: ' ' ::
        (("AAAAAAAAAAAAAAAAAAAAAAAAAAAAAA").data ++
          (' ' :: 'h' :: ("ow many calls today").data))) =
      { hasLicenseKey := true
        licenseKey := some (("AAAAAAAAAAAAAAAAAAAAAAAAAAAAAA").data)
        actualQuery := trimL ('h' :: ("ow many calls today").data)
        originalQuestion := 'I' :: 'n' :: ' ' ::
          (("AAAAAAAAAAAAAAAAAAAAAAAAAAAAAA").data ++
            (' ' :: 'h' :: ("ow many calls today").data)) } := by
  exact (apiChatRouting_license_key_split_amended
    (("AAAAAAAAAAAAAAAAAAAAAAAAAAAAAA").data) 'h' (("ow many calls today").data)
    (by decide) (by decide) (by decide) (by decide)).1

-- ==================== SQL AUGMENTER (services.js) ===========================

/-- Anchored case-insensitive test of `(ORDER BY|LIMIT)`. -/
def orderLimitAt (s : List Char) : Bool :=
  listStartsWith (upperL s) (("ORDER BY").data) ||
  listStartsWith (upperL s) (("LIMIT").data)

/-- After the first whitespace character of a `/\s+(ORDER BY|LIMIT)/i` match:
zero or more further whitespace characters, then the keyword. -/
def wsStarThenOrderLimit : List Char → Bool
  | [] => false
  | c :: t => orderLimitAt (c :: t) || (jsIsWhitespace c && wsStarThenOrderLimit t)

/-- Anchored test of `/\s+(ORDER BY|LIMIT)/i`. -/
def wsOrderLimitAt : List Char → Bool
  | [] => false
  | c :: t => jsIsWhitespace c && wsStarThenOrderLimit t

/-- Model of `s.search(/\s+(ORDER BY|LIMIT)/i)`: the index of the leftmost
match, `none` standing for the source's `-1`. -/
def searchWsOrderLimit : List Char → Option Nat
  | [] => none
  | c :: t =>
    if wsOrderLimitAt (c :: t) then some 0
    else (searchWsOrderLimit t).map (· + 1)

/-- `s.slice(0, i) + ins + s.slice(i)`, the insertion primitive of the
augmenter's synthesized-WHERE branches. -/
def insertAtIdx (s : List Char) (i : Nat) (ins : List Char) : List Char :=
  s.take i ++ ins ++ s.drop i

/-- Model of `s.replace(/WHERE/i, repl)`: replace the leftmost
case-insensitive occurrence of `WHERE` (the replacement strings the source
passes contain no `$` substitution patterns). -/
def replaceFirstWhere : List Char → List Char → List Char
  | [], _ => []
  | c :: t, repl =>
    if listStartsWith (upperL (c :: t)) (("WHERE").data) then
      repl ++ List.drop 4 t
    else
      c :: replaceFirstWhere t repl

/-- A `{startDate, endDate}` pair (both `YYYY-MM-DD` strings in the source). -/
structure DateRangeE where
  startDate : List Char
  endDate : List Char
deriving DecidableEq, Repr

/-- The entities record built by `extractSQLEntities` (services.js) and read
by `enhanceSQLQuery`.  JavaScript truthiness is modelled by `Option` /
`Bool`: the source's `null` becomes `none` / `false`, and a falsy empty
`state` string is also `none`. -/
structure SQLEntities where
  patientName : Option (List Char) := none
  patientNum : Option Nat := none
  dateRange : Option DateRangeE := none
  dateContext : Option (List Char) := none
  isActive : Bool := false
  includeDeleted : Bool := false
  limit : Option Nat := none
  needsLimit : Bool := true
  state : Option (List Char) := none
  tableType : Option (List Char) := none
deriving DecidableEq, Repr

/-- The clause-splicing primitive shared by the four filter steps of
`enhanceSQLQuery`: with `hasWhere` computed by the caller from the (stale)
uppercased original query, either prepend the condition to the first `WHERE`
of the current string via `AND`, or insert a new `WHERE` before a trailing
`ORDER BY`/`LIMIT` of the current string, or append one at the very end. -/
def spliceAnd (hasWhere : Bool) (cur cond : List Char) : List Char :=
  if hasWhere then
    replaceFirstWhere cur ((("WHERE ").data ++ cond ++ (" AND").data))
  else
    match searchWsOrderLimit cur with
    | some i => insertAtIdx cur i ((" WHERE ").data ++ cond)
    | none => cur ++ (" WHERE ").data ++ cond

/-- The "Add LIMIT if missing" step of `enhanceSQLQuery` (services.js lines
2276-2281): `entities.limit || 100` (JS falsy `0` also yields 100), strip a
terminal `;` and re-trim, then append ` LIMIT <n>` (no semicolon is
re-appended on this path). -/
def enhanceStepLimit (enhanced0 upperQuery : List Char) (entities : SQLEntities) : List Char :=
  if entities.needsLimit && !(containsSeg upperQuery (("LIMIT").data)) then
    let defaultLimit :=
      match entities.limit with
      | some n => if n == 0 then 100 else n
      | none => 100
    let base :=
      if enhanced0.getLast? == some ';' then trimL enhanced0.dropLast else enhanced0
    base ++ (" LIMIT ").data ++ natChars defaultLimit
  else enhanced0

/-- The "Add Active Filter" step (services.js lines 2284-2297); `hasWhere`
and the `ISACTIVE` check read the stale `upperQuery`. -/
def enhanceStepActive (upperQuery cur : List Char) (entities : SQLEntities) : List Char :=
  if entities.isActive && !(containsSeg upperQuery (("ISACTIVE").data)) then
    spliceAnd (containsSeg upperQuery (("WHERE").data)) cur (("IsActive = 1").data)
  else cur

/-- The "Exclude Deleted Records" step (services.js lines 2300-2316); all
checks read the stale `upperQuery`. -/
def enhanceStepDeleted (upperQuery cur : List Char) (entities : SQLEntities) : List Char :=
  if !entities.includeDeleted &&
      (containsSeg upperQuery (("FROM PATIENT").data) ||
        containsSeg upperQuery (("FROM `PATIENT`").data)) then
    if !(containsSeg upperQuery (("PATSTATUS").data)) then
      spliceAnd (containsSeg upperQuery (("WHERE").data)) cur (("(PatStatus != 2)").data)
    else cur
  else cur

/-- The "Add Date Range Filter" step (services.js lines 2319-2345). -/
def enhanceStepDate (upperQuery cur : List Char) (entities : SQLEntities) : List Char :=
  match entities.dateRange with
  | some dr =>
    let dateColumns :=
      ["AptDateTime", "ProcDate", "DateEntry", "CreatedDate", "ModifiedDate", "CommDateTime"]
    match dateColumns.find? (fun col => containsSeg upperQuery (upperL col.data)) with
    | some col =>
      spliceAnd (containsSeg upperQuery (("WHERE").data)) cur
        ((("DATE(").data ++ col.data ++ (") BETWEEN '").data ++ dr.startDate ++
          ("' AND '").data ++ dr.endDate ++ ("'").data))
    | none => cur
  | none => cur

/-- The "Add State Filter" step (services.js lines 2348-2363). -/
def enhanceStepState (upperQuery cur : List Char) (entities : SQLEntities) : List Char :=
  match entities.state with
  | some st =>
    spliceAnd (containsSeg upperQuery (("WHERE").data)) cur
      ((("State = '").data ++ st ++ ("'").data))
  | none => cur

/-- Model of `enhanceSQLQuery(sqlQuery, entities)` (services.js): LIMIT
injection, `IsActive = 1` filter, `(PatStatus != 2)` deleted-record filter,
date-range filter and state filter, in the source's order.  `upperQuery` is
computed once from the trimmed input and never refreshed, exactly as in the
source (each step's `hasWhere` and already-referenced checks therefore look
at the original query even after earlier steps changed the string). -/
def enhanceSQLQuery (sqlQuery : List Char) (entities : SQLEntities) : List Char :=
  let enhanced0 := trimL sqlQuery
  let upperQuery := upperL enhanced0
  enhanceStepState upperQuery
    (enhanceStepDate upperQuery
      (enhanceStepDeleted upperQuery
        (enhanceStepActive upperQuery
          (enhanceStepLimit enhanced0 upperQuery entities) entities) entities) entities)
    entities

/-- Model of `ensureQueryHasLimit(query, defaultLimit)` (services.js), the
raw safety net used on TXQL/fallback-generated SQL (its default limit is
1000 and, unlike `enhanceSQLQuery`, it re-appends a terminal `;`). -/
def ensureQueryHasLimit (query : List Char) (defaultLimit : Nat) : List Char :=
  if query.isEmpty then query
  else
    let trimmedQuery := trimL query
    let upperQuery := upperL trimmedQuery
    if containsSeg upperQuery (("LIMIT").data) then trimmedQuery
    else
      let cleanQuery :=
        if trimmedQuery.getLast? == some ';' then trimmedQuery.dropLast else trimmedQuery
      cleanQuery ++ (" LIMIT ").data ++ natChars defaultLimit ++ (";").data

/-- The condition of `enhanceSQLQuery`'s LIMIT step (services.js line 2276)
as it would evaluate on a given input query: the append fires exactly when
auto-limiting is requested and the trimmed, uppercased query does not yet
contain `LIMIT`. -/
def limitAppendGuard (sqlQuery : List Char) (entities : SQLEntities) : Bool :=
  entities.needsLimit && !(containsSeg (upperL (trimL sqlQuery)) (("LIMIT").data))

/-- C1: on the spec's scenario D input (`SELECT * FROM patient` with
`isActiveOnly`, deleted excluded, auto-limit on) the augmenter emits BOTH
conditions and the trailing `LIMIT 100`, but in TWO separate `WHERE`
clauses — not one — because the deleted-record step consults the stale
`upperQuery` of the original input, finds no `WHERE` there, and synthesizes
a second one after the `WHERE` the active step just inserted. -/
theorem enhanceSQLQuery_scenarioD_double_where :
    enhanceSQLQuery (("SELECT * FROM patient").data)
        { isActive := true, includeDeleted := false, needsLimit := true } =
      ("SELECT * FROM patient WHERE IsActive = 1 WHERE (PatStatus != 2) LIMIT 100").data ∧
    containsSeg
      (("SELECT * FROM patient WHERE IsActive = 1 WHERE (PatStatus != 2) LIMIT 100").data)
      (("IsActive = 1").data) = true ∧
    containsSeg
      (("SELECT * FROM patient WHERE IsActive = 1 WHERE (PatStatus != 2) LIMIT 100").data)
      (("(PatStatus != 2)").data) = true ∧
    listStartsWith
      (("SELECT * FROM patient WHERE IsActive = 1 WHERE (PatStatus != 2) LIMIT 100").data).reverse
      ((" LIMIT 100").data).reverse = true ∧
    jsCountMatches
      (upperL (("SELECT * FROM patient WHERE IsActive = 1 WHERE (PatStatus != 2) LIMIT 100").data))
      (("WHERE").data) = 2 := by
  refine ⟨by decide, by decide, by decide, by decide, by decide⟩

-- ==================== OCCURRENCE CHARACTERIZATIONS ==========================

theorem listStartsWith_iff {s pat : List Char} :
    listStartsWith s pat = true ↔ ∃ t, s = pat ++ t := by
  induction pat generalizing s with
  | nil => simp [listStartsWith]
  | cons p ps ih =>
    cases s with
    | nil => simp [listStartsWith]
    | cons c t =>
      simp only [listStartsWith, Bool.and_eq_true, beq_iff_eq, ih, List.cons_append]
      constructor
      · rintro ⟨hc, r, hr⟩
        exact ⟨r, by rw [hc, hr]⟩
      · rintro ⟨r, hr⟩
        injection hr with h1 h2
        exact ⟨h1, r, h2⟩

theorem containsSeg_iff {s pat : List Char} :
    containsSeg s pat = true ↔ ∃ a b, s = a ++ pat ++ b := by
  induction s with
  | nil =>
    simp only [containsSeg, listStartsWith_iff]
    constructor
    · rintro ⟨t, ht⟩
      exact ⟨[], t, by simpa using ht⟩
    · rintro ⟨a, b, hab⟩
      have hlen : a.length + (pat.length + b.length) = 0 := by
        simpa using congrArg List.length hab.symm
      have hp : pat = [] := List.length_eq_zero.mp (by omega)
      exact ⟨[], by simp [hp]⟩
  | cons c t ih =>
    simp only [containsSeg, Bool.or_eq_true, listStartsWith_iff, ih]
    constructor
    · rintro (⟨r, hr⟩ | ⟨a, b, hab⟩)
      · exact ⟨[], r, by simpa using hr⟩
      · exact ⟨c :: a, b, by simp [hab]⟩
    · rintro ⟨a, b, hab⟩
      cases a with
      | nil => exact Or.inl ⟨b, by simpa using hab⟩
      | cons a0 a' =>
        injection hab with h1 h2
        exact Or.inr ⟨a', b, h2⟩

theorem containsSeg_sandwich (a pat b : List Char) :
    containsSeg (a ++ pat ++ b) pat = true :=
  containsSeg_iff.mpr ⟨a, b, rfl⟩

theorem containsSeg_append_left {u pat : List Char} (v : List Char)
    (h : containsSeg u pat = true) : containsSeg (u ++ v) pat = true := by
  obtain ⟨a, b, hab⟩ := containsSeg_iff.mp h
  exact containsSeg_iff.mpr ⟨a, b ++ v, by simp [hab]⟩

theorem containsSeg_append_right {v pat : List Char} (u : List Char)
    (h : containsSeg v pat = true) : containsSeg (u ++ v) pat = true := by
  obtain ⟨a, b, hab⟩ := containsSeg_iff.mp h
  exact containsSeg_iff.mpr ⟨u ++ a, b, by simp [hab]⟩

theorem containsSeg_cons {t pat : List Char} (c : Char)
    (h : containsSeg t pat = true) : containsSeg (c :: t) pat = true := by
  simp [containsSeg, h]

theorem containsSeg_of_drop {s pat : List Char} (n : Nat)
    (h : containsSeg (List.drop n s) pat = true) : containsSeg s pat = true := by
  have := containsSeg_append_right (List.take n s) h
  rwa [List.take_append_drop] at this

-- ==================== SQL VALIDATION (services.js validateSQL) ==============

/-- Anchored-anywhere test of `/a[\s\S]+?b/`: an occurrence of `a`, at least
one character, then an occurrence of `b`. -/
def seqAfter : List Char → List Char → List Char → Bool
  | [], _, _ => false
  | c :: t, a, b =>
    (listStartsWith (c :: t) a && containsSeg (List.drop a.length t) b) || seqAfter t a b

/-- Anchored-anywhere test of `/a[\s\S]+?b[\s\S]+?c/`. -/
def seqAfter3 : List Char → List Char → List Char → List Char → Bool
  | [], _, _, _ => false
  | ch :: t, a, b, c =>
    (listStartsWith (ch :: t) a && seqAfter (List.drop a.length t) b c) || seqAfter3 t a b c

/-- Result of `validateSQL` (services.js): `{valid: true}` or
`{valid: false, error}`. -/
inductive SQLValidation where
  | valid : SQLValidation
  | invalid (error : List Char) : SQLValidation
deriving DecidableEq, Repr

/-- Model of `validateSQL(query)` (services.js): reject empty input, a
`SELECT...WHERE` with no interposed `FROM`, unbalanced `/*` vs `*/` counts,
and a `SELECT` with neither `FROM` nor `DUAL`; accept everything else.  The
source runs its case-insensitive regexes over the raw query, which is
equivalent to running the uppercase literals over `upperQuery`. -/
def validateSQL (query : List Char) : SQLValidation :=
  if query.isEmpty then .invalid (("Query is empty or null").data)
  else
    let upperQuery := upperL query
    if seqAfter upperQuery (("SELECT").data) (("WHERE").data) &&
        !(seqAfter3 upperQuery (("SELECT").data) (("FROM").data) (("WHERE").data)) then
      .invalid (("Invalid SQL: SELECT statement missing FROM clause before WHERE").data)
    else if jsCountMatches query (("/*").data) != jsCountMatches query (("*/").data) then
      .invalid (("Invalid SQL: Unclosed comment block (/* without */)").data)
    else if containsSeg upperQuery (("SELECT").data) &&
        (!(containsSeg upperQuery (("FROM").data)) &&
          !(containsSeg upperQuery (("DUAL").data))) then
      .invalid (("Invalid SQL: SELECT statement missing FROM clause").data)
    else .valid

theorem seqAfter_contains_left {s a b : List Char}
    (h : seqAfter s a b = true) : containsSeg s a = true := by
  induction s with
  | nil => cases h
  | cons c t ih =>
    simp only [seqAfter, Bool.or_eq_true, Bool.and_eq_true] at h
    rcases h with ⟨h1, _⟩ | h2
    · simp [containsSeg, h1]
    · exact containsSeg_cons c (ih h2)

theorem seqAfter_contains_right {s a b : List Char}
    (h : seqAfter s a b = true) : containsSeg s b = true := by
  induction s with
  | nil => cases h
  | cons c t ih =>
    simp only [seqAfter, Bool.or_eq_true, Bool.and_eq_true] at h
    rcases h with ⟨_, h2⟩ | h3
    · exact containsSeg_cons c (containsSeg_of_drop a.length h2)
    · exact containsSeg_cons c (ih h3)

theorem seqAfter3_contains_middle {s a b c : List Char}
    (h : seqAfter3 s a b c = true) : containsSeg s b = true := by
  induction s with
  | nil => cases h
  | cons ch t ih =>
    simp only [seqAfter3, Bool.or_eq_true, Bool.and_eq_true] at h
    rcases h with ⟨_, h2⟩ | h3
    · exact containsSeg_cons ch (containsSeg_of_drop a.length (seqAfter_contains_left h2))
    · exact containsSeg_cons ch (ih h3)

theorem seqAfter3_contains_left {s a b c : List Char}
    (h : seqAfter3 s a b c = true) : containsSeg s a = true := by
  induction s with
  | nil => cases h
  | cons ch t ih =>
    simp only [seqAfter3, Bool.or_eq_true, Bool.and_eq_true] at h
    rcases h with ⟨h1, _⟩ | h3
    · simp [containsSeg, h1]
    · exact containsSeg_cons ch (ih h3)

/-- C3 counterexample: the string `"WHERE SELECT DUAL"` contains `SELECT`
and `WHERE` and no `FROM`, yet `validateSQL` accepts it — the
missing-FROM regex only fires when `SELECT` precedes `WHERE`, and the
basic-structure check is satisfied by the `DUAL` token. -/
theorem validateSQL_select_where_no_from_cex :
    validateSQL (("WHERE SELECT DUAL").data) = .valid ∧
    containsSeg (upperL (("WHERE SELECT DUAL").data)) (("SELECT").data) = true ∧
    containsSeg (upperL (("WHERE SELECT DUAL").data)) (("WHERE").data) = true ∧
    containsSeg (upperL (("WHERE SELECT DUAL").data)) (("FROM").data) = false := by
  refine ⟨by decide, by decide, by decide, by decide⟩

/-- C3 amended: (a) `validateSQL` rejects every string in which `SELECT` is
followed (at distance at least one character) by `WHERE` with no `FROM`
anywhere — not every string merely containing the two tokens; (b) it rejects
every string whose `/*` and `*/` counts differ; (c) it accepts every string
containing `SELECT`, then `FROM`, then `WHERE` in order with balanced
comment delimiters. -/
theorem validateSQL_rules_amended :
    (∀ q : List Char,
      seqAfter (upperL q) (("SELECT").data) (("WHERE").data) = true →
      containsSeg (upperL q) (("FROM").data) = false →
      validateSQL q =
        .invalid (("Invalid SQL: SELECT statement missing FROM clause before WHERE").data)) ∧
    (∀ q : List Char,
      jsCountMatches q (("/*").data) ≠ jsCountMatches q (("*/").data) →
      validateSQL q ≠ .valid) ∧
    (∀ q : List Char,
      seqAfter3 (upperL q) (("SELECT").data) (("FROM").data) (("WHERE").data) = true →
      jsCountMatches q (("/*").data) = jsCountMatches q (("*/").data) →
      validateSQL q = .valid) := by
  refine ⟨?_, ?_, ?_⟩
  · intro q hsw hfrom
    have hq : q.isEmpty = false := by
      cases q with
      | nil => cases hsw
      | cons c t => rfl
    have h3 : seqAfter3 (upperL q) (("SELECT").data) (("FROM").data) (("WHERE").data) = false := by
      cases h : seqAfter3 (upperL q) (("SELECT").data) (("FROM").data) (("WHERE").data) with
      | false => rfl
      | true => rw [seqAfter3_contains_middle h] at hfrom; cases hfrom
    unfold validateSQL
    rw [hq]
    simp [hsw, h3]
  · intro q hcount
    unfold validateSQL
    by_cases hq : q.isEmpty
    · simp [hq]
    · simp only [hq, Bool.false_eq_true, if_false]
      by_cases h1 : (seqAfter (upperL q) (("SELECT").data) (("WHERE").data) &&
          !(seqAfter3 (upperL q) (("SELECT").data) (("FROM").data) (("WHERE").data))) = true
      · simp [h1]
      · simp only [h1, Bool.false_eq_true, if_false]
        have : (jsCountMatches q (("/*").data) != jsCountMatches q (("*/").data)) = true := by
          simpa using hcount
        simp [this]
  · intro q h3 hcount
    have hq : q.isEmpty = false := by
      cases hq' : q with
      | nil => rw [hq'] at h3; cases h3
      | cons c t => rfl
    have hfrom : containsSeg (upperL q) (("FROM").data) = true := seqAfter3_contains_middle h3
    have hc : (jsCountMatches q (("/*").data) != jsCountMatches q (("*/").data)) = false := by
      simp [hcount]
    unfold validateSQL
    rw [hq]
    simp [h3, hc, hfrom]

/-- Witness for C3 amended: part (a) at `"SELECT x WHERE y"`, part (b) at
`"SELECT 1 /* FROM t"`, part (c) at `"SELECT a FROM t WHERE b = 1"`. -/
theorem validateSQL_rules_amended_witness :
    validateSQL (("SELECT x WHERE y").data) =
      .invalid (("Invalid SQL: SELECT statement missing FROM clause before WHERE").data) ∧
    validateSQL (("SELECT 1 /* FROM t").data) ≠ .valid ∧
    validateSQL (("SELECT a FROM t WHERE b = 1").data) = .valid := by
  refine ⟨?_, ?_, ?_⟩
  · exact validateSQL_rules_amended.1 (("SELECT x WHERE y").data) (by decide) (by decide)
  · exact validateSQL_rules_amended.2.1 (("SELECT 1 /* FROM t").data) (by decide)
  · exact validateSQL_rules_amended.2.2 (("SELECT a FROM t WHERE b = 1").data)
      (by decide) (by decide)

-- ==================== WHITESPACE AND TRIM LEMMAS ============================

theorem ws_enum {c : Char} (h : jsIsWhitespace c = true) :
    c = ' ' ∨ c = '\t' ∨ c = '\n' ∨ c = '\r' ∨ c = '\x0b' ∨ c = '\x0c' ∨
    c = ' ' ∨ c = ' ' ∨ c = ' ' := by
  unfold jsIsWhitespace at h
  simp only [Bool.or_eq_true, beq_iff_eq] at h
  tauto

theorem ws_upper_fixed {c : Char} (h : jsIsWhitespace c = true) : jsUpperChar c = c := by
  rcases ws_enum h with h|h|h|h|h|h|h|h|h <;> subst h <;> decide

theorem ws_notin_limit {c : Char} (h : jsIsWhitespace c = true) :
    c ∉ (("LIMIT").data) := by
  rcases ws_enum h with h|h|h|h|h|h|h|h|h <;> subst h <;> decide

theorem upper_mem_limit_not_ws {c : Char} (h : jsUpperChar c ∈ (("LIMIT").data)) :
    jsIsWhitespace c = false := by
  cases hw : jsIsWhitespace c with
  | false => rfl
  | true => exact absurd (ws_upper_fixed hw ▸ h) (ws_notin_limit hw)

theorem trimL_eq_rdw (s : List Char) :
    trimL s = List.rdropWhile jsIsWhitespace (s.dropWhile jsIsWhitespace) := rfl

theorem dropWhile_cons_head_false {p : Char → Bool} :
    ∀ {s : List Char} {c : Char} {y : List Char}, s.dropWhile p = c :: y → p c = false := by
  intro s
  induction s with
  | nil => intro c y h; cases h
  | cons a t ih =>
    intro c y h
    rw [List.dropWhile_cons] at h
    by_cases hp : p a = true
    · rw [if_pos hp] at h
      exact ih h
    · rw [if_neg hp] at h
      injection h with h1 _
      rw [← h1]
      exact Bool.not_eq_true _ ▸ (by simpa using hp)

theorem trimL_idem (s : List Char) : trimL (trimL s) = trimL s := by
  rw [trimL_eq_rdw, trimL_eq_rdw]
  have h1 : List.dropWhile jsIsWhitespace
      (List.rdropWhile jsIsWhitespace (s.dropWhile jsIsWhitespace)) =
      List.rdropWhile jsIsWhitespace (s.dropWhile jsIsWhitespace) := by
    cases hT : List.rdropWhile jsIsWhitespace (s.dropWhile jsIsWhitespace) with
    | nil => simp
    | cons c t =>
      have hpre := List.rdropWhile_prefix jsIsWhitespace (s.dropWhile jsIsWhitespace)
      rw [hT] at hpre
      obtain ⟨rest, hrest⟩ := hpre
      have hx : s.dropWhile jsIsWhitespace = c :: (t ++ rest) := by
        rw [← hrest]
        simp
      have hc : jsIsWhitespace c = false := dropWhile_cons_head_false hx
      rw [List.dropWhile_cons, if_neg (by simp [hc])]
  rw [h1, List.rdropWhile_idempotent]

theorem dropWhile_append_infix {p : Char → Bool} (a m b : List Char)
    (hm : ∃ m0 mt, m = m0 :: mt ∧ p m0 = false) :
    ∃ a', List.dropWhile p (a ++ m ++ b) = a' ++ m ++ b := by
  induction a with
  | nil =>
    obtain ⟨m0, mt, hm1, hm2⟩ := hm
    refine ⟨[], ?_⟩
    simp [hm1, List.dropWhile_cons, hm2]
  | cons c a' ih =>
    by_cases hc : p c = true
    · obtain ⟨a'', h⟩ := ih
      refine ⟨a'', ?_⟩
      simp only [List.cons_append]
      rw [List.dropWhile_cons, if_pos hc]
      exact h
    · refine ⟨c :: a', ?_⟩
      simp only [List.cons_append]
      rw [List.dropWhile_cons, if_neg hc]

theorem trimL_infix {a m b : List Char} (hmne : m ≠ [])
    (hm : ∀ c ∈ m, jsIsWhitespace c = false) :
    ∃ a' b', trimL (a ++ m ++ b) = a' ++ m ++ b' := by
  have hmh : ∃ m0 mt, m = m0 :: mt ∧ jsIsWhitespace m0 = false := by
    cases m with
    | nil => exact absurd rfl hmne
    | cons m0 mt => exact ⟨m0, mt, rfl, hm m0 (by simp)⟩
  obtain ⟨a1, h1⟩ := dropWhile_append_infix a m b hmh
  have hmr : ∃ m0 mt, m.reverse = m0 :: mt ∧ jsIsWhitespace m0 = false := by
    cases hrev : m.reverse with
    | nil => exact absurd (by simpa using hrev) hmne
    | cons m0 mt =>
      refine ⟨m0, mt, rfl, hm m0 ?_⟩
      have : m0 ∈ m.reverse := by simp [hrev]
      simpa using this
  obtain ⟨b1, h2⟩ := dropWhile_append_infix b.reverse m.reverse a1.reverse hmr
  refine ⟨a1, b1.reverse, ?_⟩
  rw [trimL_eq_rdw, h1]
  unfold List.rdropWhile
  rw [show (a1 ++ m ++ b).reverse = b.reverse ++ m.reverse ++ a1.reverse by simp, h2]
  simp

theorem upperL_decomp {s A pat B : List Char} (h : upperL s = A ++ pat ++ B) :
    ∃ a m b, s = a ++ m ++ b ∧ upperL a = A ∧ upperL m = pat ∧ upperL b = B := by
  unfold upperL at h ⊢
  rw [List.append_assoc] at h
  rcases List.map_eq_append_iff.mp h with ⟨l₁, l₂, h1, h2, h3⟩
  rcases List.map_eq_append_iff.mp h3 with ⟨m, b, hmb, hmm, hb⟩
  exact ⟨l₁, m, b, by rw [h1, hmb, List.append_assoc], h2, hmm, hb⟩

theorem containsSeg_upper_trim {s pat : List Char} (hne : pat ≠ [])
    (hpat : ∀ c, jsUpperChar c ∈ pat → jsIsWhitespace c = false)
    (h : containsSeg (upperL s) pat = true) :
    containsSeg (upperL (trimL s)) pat = true := by
  obtain ⟨A, B, hAB⟩ := containsSeg_iff.mp h
  obtain ⟨a, m, b, hs, _, hmu, _⟩ := upperL_decomp hAB
  have hmne : m ≠ [] := by
    intro h0
    rw [h0] at hmu
    exact hne hmu.symm
  have hmws : ∀ c ∈ m, jsIsWhitespace c = false := by
    intro c hc
    exact hpat c (hmu ▸ List.mem_map_of_mem _ hc)
  rw [hs]
  obtain ⟨a', b', ht⟩ := trimL_infix hmne hmws (a := a) (b := b)
  rw [ht]
  have hmu' : List.map jsUpperChar m = pat := hmu
  exact containsSeg_iff.mpr ⟨upperL a', upperL b',
    by simp [upperL, List.map_append, hmu']⟩

theorem containsSeg_append_split {u v pat : List Char}
    (h : containsSeg (u ++ v) pat = true) :
    containsSeg u pat = true ∨ containsSeg v pat = true ∨
      ∃ x y, pat = x ++ y ∧ x ≠ [] ∧ y ≠ [] ∧ (∃ u1, u = u1 ++ x) ∧ ∃ v2, v = y ++ v2 := by
  induction u with
  | nil =>
    right; left
    simpa using h
  | cons c u' ih =>
    rw [List.cons_append] at h
    have h' : listStartsWith (c :: (u' ++ v)) pat = true ∨ containsSeg (u' ++ v) pat = true := by
      have := h
      rw [containsSeg] at this
      simpa [Bool.or_eq_true] using this
    rcases h' with h1 | h2
    · obtain ⟨rest, hrest⟩ := listStartsWith_iff.mp h1
      have heq : (c :: u') ++ v = pat ++ rest := by simpa using hrest
      rcases List.append_eq_append_iff.mp heq with ⟨a', ha1, ha2⟩ | ⟨c', hc1, hc2⟩
      · cases a' with
        | nil =>
          left
          rw [List.append_nil] at ha1
          have : listStartsWith (c :: u') pat = true :=
            listStartsWith_iff.mpr ⟨[], by simp [ha1]⟩
          simp [containsSeg, this]
        | cons a0 a'' =>
          right; right
          exact ⟨c :: u', a0 :: a'', ha1, by simp, by simp, ⟨[], by simp⟩, ⟨rest, ha2⟩⟩
      · left
        have : listStartsWith (c :: u') pat = true := listStartsWith_iff.mpr ⟨c', hc1⟩
        simp [containsSeg, this]
    · rcases ih h2 with hu | hv | ⟨x, y, hxy, hx, hy, ⟨u1, hu1⟩, hv2⟩
      · exact Or.inl (containsSeg_cons c hu)
      · exact Or.inr (Or.inl hv)
      · exact Or.inr (Or.inr ⟨x, y, hxy, hx, hy, ⟨c :: u1, by simp [hu1]⟩, hv2⟩)

-- ==================== SPLICE-STEP PRESERVATION (for C5) =====================

theorem replaceFirstWhere_spec (s repl : List Char) :
    replaceFirstWhere s repl = s ∨
      ∃ a m b, s = a ++ m ++ b ∧ upperL m = (("WHERE").data) ∧
        replaceFirstWhere s repl = a ++ repl ++ b := by
  induction s with
  | nil => left; rfl
  | cons c t ih =>
    by_cases hw : listStartsWith (upperL (c :: t)) (("WHERE").data) = true
    · right
      obtain ⟨rest, hrest⟩ := listStartsWith_iff.mp hw
      obtain ⟨m, b, hsplit, hm, _⟩ :
          ∃ m b, c :: t = m ++ b ∧ upperL m = (("WHERE").data) ∧ upperL b = rest := by
        unfold upperL at hrest ⊢
        rcases List.map_eq_append_iff.mp hrest with ⟨l₁, l₂, h1, h2, h3⟩
        exact ⟨l₁, l₂, h1, h2, h3⟩
      have hml : m.length = 5 := by
        have := congrArg List.length hm
        simpa [upperL] using this
      have hd : List.drop 4 t = b := by
        have h5 : List.drop 5 (c :: t) = b := by
          rw [hsplit, ← hml]
          exact List.drop_left m b
        simpa using h5
      refine ⟨[], m, b, by simpa using hsplit, hm, ?_⟩
      unfold replaceFirstWhere
      rw [if_pos hw, hd]
      simp
    · unfold replaceFirstWhere
      rw [if_neg hw]
      rcases ih with hid | ⟨a, m, b, hs, hm, hr⟩
      · left
        rw [hid]
      · right
        exact ⟨c :: a, m, b, by simp [hs], hm, by simp [hr]⟩

theorem replaceFirstWhere_preserves_limit {s : List Char} (repl : List Char)
    (h : containsSeg (upperL s) (("LIMIT").data) = true) :
    containsSeg (upperL (replaceFirstWhere s repl)) (("LIMIT").data) = true := by
  rcases replaceFirstWhere_spec s repl with hid | ⟨a, m, b, hs, hm, hr⟩
  · rw [hid]
    exact h
  · rw [hr]
    rw [hs] at h
    have hm' : List.map jsUpperChar m = (("WHERE").data) := hm
    have hsplit : upperL (a ++ m ++ b) =
        upperL a ++ ((("WHERE").data) ++ upperL b) := by
      simp [upperL, List.map_append, hm', List.append_assoc]
    rw [hsplit] at h
    rcases containsSeg_append_split h with h1 | h2 | ⟨x, y, hxy, hx, hy, _, ⟨v2, hv2⟩⟩
    · rw [show upperL (a ++ repl ++ b) = upperL a ++ (upperL repl ++ upperL b) by
        simp [upperL, List.map_append, List.append_assoc]]
      exact containsSeg_append_left _ h1
    · rcases containsSeg_append_split h2 with h3 | h4 | ⟨x, y, hxy, hx, hy, ⟨u1, hu1⟩, _⟩
      · exact absurd h3 (by decide)
      · rw [show upperL (a ++ repl ++ b) = (upperL a ++ upperL repl) ++ upperL b by
          simp [upperL, List.map_append]]
        exact containsSeg_append_right _ h4
      · exfalso
        cases x with
        | nil => exact hx rfl
        | cons x0 x' =>
          have hx0 : x0 = 'L' := by
            have := congrArg List.head? hxy
            simpa using this.symm
          have hmem : x0 ∈ (("WHERE").data) := by
            rw [hu1]
            simp
          rw [hx0] at hmem
          exact absurd hmem (by decide)
    · exfalso
      cases y with
      | nil => exact hy rfl
      | cons y0 y' =>
        have hy0 : y0 = 'W' := by
          have := congrArg List.head? hv2
          simpa using this.symm
        have hmem : y0 ∈ (("LIMIT").data) := by
          rw [hxy]
          simp
        rw [hy0] at hmem
        exact absurd hmem (by decide)

theorem searchWsOrderLimit_spec {s : List Char} {i : Nat}
    (h : searchWsOrderLimit s = some i) :
    ∃ a c t, s = a ++ (c :: t) ∧ a.length = i ∧ jsIsWhitespace c = true := by
  induction s generalizing i with
  | nil => cases h
  | cons d u ih =>
    unfold searchWsOrderLimit at h
    by_cases hm : wsOrderLimitAt (d :: u) = true
    · rw [if_pos hm] at h
      injection h with h0
      refine ⟨[], d, u, by simp, by simp [← h0], ?_⟩
      unfold wsOrderLimitAt at hm
      rw [Bool.and_eq_true] at hm
      exact hm.1
    · rw [if_neg hm] at h
      cases hs : searchWsOrderLimit u with
      | none =>
        rw [hs] at h
        cases h
      | some j =>
        rw [hs] at h
        simp only [Option.map_some'] at h
        injection h with h0
        obtain ⟨a, c, t, h1, h2, h3⟩ := ih hs
        exact ⟨d :: a, c, t, by simp [h1], by simp [h2, ← h0], h3⟩

theorem insertAtIdx_split (a b ins : List Char) :
    insertAtIdx (a ++ b) a.length ins = a ++ ins ++ b := by
  unfold insertAtIdx
  rw [List.take_left, List.drop_left]

theorem insertAtIdx_ws_preserves_limit {a : List Char} {c : Char} {t : List Char}
    (ins : List Char) (hc : jsIsWhitespace c = true)
    (h : containsSeg (upperL (a ++ (c :: t))) (("LIMIT").data) = true) :
    containsSeg (upperL (a ++ ins ++ (c :: t))) (("LIMIT").data) = true := by
  rw [show upperL (a ++ (c :: t)) = upperL a ++ upperL (c :: t) by
    simp [upperL, List.map_append]] at h
  rcases containsSeg_append_split h with h1 | h2 | ⟨x, y, hxy, hx, hy, _, ⟨v2, hv2⟩⟩
  · rw [show upperL (a ++ ins ++ (c :: t)) = upperL a ++ (upperL ins ++ upperL (c :: t)) by
      simp [upperL, List.map_append, List.append_assoc]]
    exact containsSeg_append_left _ h1
  · rw [show upperL (a ++ ins ++ (c :: t)) = (upperL a ++ upperL ins) ++ upperL (c :: t) by
      simp [upperL, List.map_append]]
    exact containsSeg_append_right _ h2
  · exfalso
    cases y with
    | nil => exact hy rfl
    | cons y0 y' =>
      have hy0 : jsUpperChar c = y0 := by
        have := congrArg List.head? hv2
        simpa [upperL] using this
      have hmem : y0 ∈ (("LIMIT").data) := by
        rw [hxy]
        simp
      rw [← hy0] at hmem
      have := upper_mem_limit_not_ws hmem
      rw [hc] at this
      cases this

theorem spliceAnd_preserves_limit (hw : Bool) (cur cond : List Char)
    (h : containsSeg (upperL cur) (("LIMIT").data) = true) :
    containsSeg (upperL (spliceAnd hw cur cond)) (("LIMIT").data) = true := by
  unfold spliceAnd
  cases hw with
  | true =>
    rw [if_pos rfl]
    exact replaceFirstWhere_preserves_limit _ h
  | false =>
    rw [if_neg (by simp)]
    cases hsearch : searchWsOrderLimit cur with
    | none =>
      rw [show cur ++ (" WHERE ").data ++ cond = cur ++ ((" WHERE ").data ++ cond) by
        simp [List.append_assoc]]
      rw [show upperL (cur ++ ((" WHERE ").data ++ cond)) =
          upperL cur ++ upperL ((" WHERE ").data ++ cond) by simp [upperL, List.map_append]]
      exact containsSeg_append_left _ h
    | some i =>
      obtain ⟨a, c, t, hsplit, hlen, hcws⟩ := searchWsOrderLimit_spec hsearch
      rw [hsplit] at h ⊢
      rw [← hlen]
      show containsSeg (upperL (insertAtIdx (a ++ (c :: t)) a.length
        ((" WHERE ").data ++ cond))) (("LIMIT").data) = true
      rw [insertAtIdx_split]
      exact insertAtIdx_ws_preserves_limit _ hcws h

theorem contains_upper_mid_limit (base tail : List Char) :
    containsSeg (upperL (base ++ (" LIMIT ").data ++ tail)) (("LIMIT").data) = true := by
  apply containsSeg_iff.mpr
  refine ⟨upperL base ++ ((" ").data), ((" ").data) ++ upperL tail, ?_⟩
  have h1 : List.map jsUpperChar ((" LIMIT ").data) =
      ((" ").data) ++ (("LIMIT").data) ++ ((" ").data) := by decide
  simp [upperL, List.map_append, h1, List.append_assoc]
  decide

theorem enhanceStepActive_preserves_limit (u cur : List Char) (e : SQLEntities)
    (h : containsSeg (upperL cur) (("LIMIT").data) = true) :
    containsSeg (upperL (enhanceStepActive u cur e)) (("LIMIT").data) = true := by
  unfold enhanceStepActive
  by_cases hcond : (e.isActive && !(containsSeg u (("ISACTIVE").data))) = true
  · rw [if_pos hcond]
    exact spliceAnd_preserves_limit _ _ _ h
  · rw [if_neg hcond]
    exact h

theorem enhanceStepDeleted_preserves_limit (u cur : List Char) (e : SQLEntities)
    (h : containsSeg (upperL cur) (("LIMIT").data) = true) :
    containsSeg (upperL (enhanceStepDeleted u cur e)) (("LIMIT").data) = true := by
  unfold enhanceStepDeleted
  by_cases h1 : (!e.includeDeleted &&
      (containsSeg u (("FROM PATIENT").data) || containsSeg u (("FROM `PATIENT`").data))) = true
  · rw [if_pos h1]
    by_cases h2 : (!(containsSeg u (("PATSTATUS").data))) = true
    · rw [if_pos h2]
      exact spliceAnd_preserves_limit _ _ _ h
    · rw [if_neg h2]
      exact h
  · rw [if_neg h1]
    exact h

theorem enhanceStepDate_preserves_limit (u cur : List Char) (e : SQLEntities)
    (h : containsSeg (upperL cur) (("LIMIT").data) = true) :
    containsSeg (upperL (enhanceStepDate u cur e)) (("LIMIT").data) = true := by
  unfold enhanceStepDate
  cases e.dateRange with
  | none => exact h
  | some dr =>
    cases hfind : (["AptDateTime", "ProcDate", "DateEntry", "CreatedDate", "ModifiedDate",
        "CommDateTime"].find? (fun col => containsSeg u (upperL col.data))) with
    | none =>
      simp only [hfind]
      exact h
    | some col =>
      simp only [hfind]
      exact spliceAnd_preserves_limit _ _ _ h

theorem enhanceStepState_preserves_limit (u cur : List Char) (e : SQLEntities)
    (h : containsSeg (upperL cur) (("LIMIT").data) = true) :
    containsSeg (upperL (enhanceStepState u cur e)) (("LIMIT").data) = true := by
  unfold enhanceStepState
  cases e.state with
  | none => exact h
  | some st => exact spliceAnd_preserves_limit _ _ _ h

theorem enhance_needsLimit_contains_limit (s : List Char) (e : SQLEntities)
    (hn : e.needsLimit = true) :
    containsSeg (upperL (enhanceSQLQuery s e)) (("LIMIT").data) = true := by
  unfold enhanceSQLQuery
  apply enhanceStepState_preserves_limit
  apply enhanceStepDate_preserves_limit
  apply enhanceStepDeleted_preserves_limit
  apply enhanceStepActive_preserves_limit
  unfold enhanceStepLimit
  by_cases hc : containsSeg (upperL (trimL s)) (("LIMIT").data) = true
  · rw [if_neg (by simp [hn, hc])]
    exact hc
  · have hc' : containsSeg (upperL (trimL s)) (("LIMIT").data) = false := by
      simpa using hc
    rw [if_pos (by rw [hn, hc']; rfl)]
    exact contains_upper_mid_limit _ _

theorem limitAppendGuard_enhance_false (s : List Char) (e : SQLEntities) :
    limitAppendGuard (enhanceSQLQuery s e) e = false := by
  cases hn : e.needsLimit with
  | false =>
    unfold limitAppendGuard
    rw [hn]
    rfl
  | true =>
    unfold limitAppendGuard
    rw [hn]
    have h1 := enhance_needsLimit_contains_limit s e hn
    have h2 := containsSeg_upper_trim (by decide)
      (fun c hc => upper_mem_limit_not_ws hc) h1
    rw [h2]
    rfl

theorem ensureQueryHasLimit_eq_trim_of_contains (q : List Char)
    (hq : q.isEmpty = false)
    (hc : containsSeg (upperL (trimL q)) (("LIMIT").data) = true) :
    ensureQueryHasLimit q 1000 = trimL q := by
  unfold ensureQueryHasLimit
  rw [hq]
  simp [hc]

theorem ensureQueryHasLimit_eq_append_of_not_contains (q : List Char)
    (hq : q.isEmpty = false)
    (hc : containsSeg (upperL (trimL q)) (("LIMIT").data) = false) :
    ensureQueryHasLimit q 1000 =
      (if (trimL q).getLast? == some ';' then (trimL q).dropLast else trimL q) ++
        (" LIMIT ").data ++ natChars 1000 ++ ((";").data) := by
  unfold ensureQueryHasLimit
  rw [hq]
  simp [hc]

theorem ensureQueryHasLimit_twice (q : List Char) :
    ensureQueryHasLimit (ensureQueryHasLimit q 1000) 1000 =
      trimL (ensureQueryHasLimit q 1000) := by
  by_cases hq : q.isEmpty = true
  · have h0 : q = [] := by
      cases q with
      | nil => rfl
      | cons c t => cases hq
    rw [h0]
    decide
  · have hq' : q.isEmpty = false := by simpa using hq
    by_cases hc : containsSeg (upperL (trimL q)) (("LIMIT").data) = true
    · rw [ensureQueryHasLimit_eq_trim_of_contains q hq' hc]
      have ht : (trimL q).isEmpty = false := by
        cases htq : trimL q with
        | nil =>
          rw [htq] at hc
          exact absurd hc (by decide)
        | cons c t => rfl
      have hc2 : containsSeg (upperL (trimL (trimL q))) (("LIMIT").data) = true := by
        rw [trimL_idem]
        exact hc
      rw [ensureQueryHasLimit_eq_trim_of_contains (trimL q) ht hc2, trimL_idem]
    · have hc' : containsSeg (upperL (trimL q)) (("LIMIT").data) = false := by
        simpa using hc
      rw [ensureQueryHasLimit_eq_append_of_not_contains q hq' hc']
      have hE2 : containsSeg (upperL
          ((if (trimL q).getLast? == some ';' then (trimL q).dropLast else trimL q) ++
            (" LIMIT ").data ++ natChars 1000 ++ ((";").data)))
          (("LIMIT").data) = true := by
        rw [List.append_assoc, List.append_assoc]
        rw [show (" LIMIT ").data ++ (natChars 1000 ++ ((";").data)) =
            (" LIMIT ").data ++ (natChars 1000 ++ ((";").data)) from rfl]
        rw [← List.append_assoc]
        exact contains_upper_mid_limit _ _
      have hE1 : ((if (trimL q).getLast? == some ';' then (trimL q).dropLast else trimL q) ++
            (" LIMIT ").data ++ natChars 1000 ++ ((";").data)).isEmpty = false := by
        cases hE : ((if (trimL q).getLast? == some ';' then (trimL q).dropLast else trimL q) ++
            (" LIMIT ").data ++ natChars 1000 ++ ((";").data)) with
        | nil =>
          have := congrArg List.length hE
          simp at this
        | cons c t => rfl
      rw [ensureQueryHasLimit_eq_trim_of_contains _ hE1
        (by
          apply containsSeg_upper_trim (by decide)
            (fun c hcc => upper_mem_limit_not_ws hcc)
          exact hE2)]

/-- C5: the LIMIT injection is idempotent.  (1) A second application of the
`ensureQueryHasLimit` safety net is a pure trim of the first application's
output — it never appends a second `LIMIT`; (2) whenever auto-limiting is on,
one pass of `enhanceSQLQuery` leaves the statement containing `LIMIT`, so
(3) the LIMIT-append guard of a second `enhanceSQLQuery` pass always
evaluates to false: at most one `LIMIT` clause is ever appended, never two. -/
theorem limit_injection_idempotent :
    (∀ q : List Char,
      ensureQueryHasLimit (ensureQueryHasLimit q 1000) 1000 =
        trimL (ensureQueryHasLimit q 1000)) ∧
    (∀ (s : List Char) (e : SQLEntities), e.needsLimit = true →
      containsSeg (upperL (enhanceSQLQuery s e)) (("LIMIT").data) = true) ∧
    (∀ (s : List Char) (e : SQLEntities),
      limitAppendGuard (enhanceSQLQuery s e) e = false) :=
  ⟨ensureQueryHasLimit_twice, enhance_needsLimit_contains_limit, limitAppendGuard_enhance_false⟩

/-- Witness for C5 at concrete inputs. -/
theorem limit_injection_idempotent_witness :
    containsSeg (upperL (enhanceSQLQuery (("SELECT * FROM patient").data)
      { needsLimit := true })) (("LIMIT").data) = true ∧
    ensureQueryHasLimit
        (ensureQueryHasLimit (("SELECT PatNum FROM patient;").data) 1000) 1000 =
      trimL (ensureQueryHasLimit (("SELECT PatNum FROM patient;").data) 1000) ∧
    limitAppendGuard (enhanceSQLQuery (("SELECT * FROM patient").data)
      { needsLimit := true }) { needsLimit := true } = false :=
  ⟨limit_injection_idempotent.2.1 (("SELECT * FROM patient").data)
      { needsLimit := true } (by decide),
    limit_injection_idempotent.1 (("SELECT PatNum FROM patient;").data),
    limit_injection_idempotent.2.2 (("SELECT * FROM patient").data)
      { needsLimit := true }⟩

-- ==================== DATE RESOLVER (services.js) ===========================

/-- Gregorian leap year. -/
def isLeapYear (y : Nat) : Bool :=
  (y % 4 == 0 && y % 100 != 0) || y % 400 == 0

/-- Days in a Gregorian month. -/
def daysInMonth (y m : Nat) : Nat :=
  if m == 2 then (if isLeapYear y then 29 else 28)
  else if m == 4 || m == 6 || m == 9 || m == 11 then 30
  else 31

/-- Numeric value of a decimal digit character. -/
def digitVal (c : Char) : Nat := c.toNat - ('0').toNat

/-- Model of `validateDateFormat(dateStr)` (services.js): the string must
match `^(\d{4})-(\d{2})-(\d{2})$`, and `new Date(dateStr)` must parse and
round-trip the UTC components exactly.  ECMAScript ISO-format parsing
produces an Invalid Date for out-of-range month/day components and otherwise
parses them exactly, so the round-trip check is modelled as the component
range check. -/
def validateDateFormat (s : List Char) : Bool :=
  match s with
  | [y1, y2, y3, y4, h1, m1, m2, h2, d1, d2] =>
    y1.isDigit && y2.isDigit && y3.isDigit && y4.isDigit &&
    h1 == '-' && m1.isDigit && m2.isDigit && h2 == '-' && d1.isDigit && d2.isDigit &&
    (let y := 1000 * digitVal y1 + 100 * digitVal y2 + 10 * digitVal y3 + digitVal y4
     let m := 10 * digitVal m1 + digitVal m2
     let d := 10 * digitVal d1 + digitVal d2
     1 ≤ m && m ≤ 12 && 1 ≤ d && d ≤ daysInMonth y m)
  | _ => false

/-- Anchored test of the global pattern `/(\d{4})-(\d{2})-(\d{2})/`. -/
def dateTokenAt : List Char → Bool
  | y1 :: y2 :: y3 :: y4 :: h1 :: m1 :: m2 :: h2 :: d1 :: d2 :: _ =>
    y1.isDigit && y2.isDigit && y3.isDigit && y4.isDigit &&
    h1 == '-' && m1.isDigit && m2.isDigit && h2 == '-' && d1.isDigit && d2.isDigit
  | _ => false

/-- Scanner for `extractDateTokens`: positions still inside the previous
match (`skip > 0`) are passed over, as a JavaScript global regex does. -/
def extractDatesAux : List Char → Nat → List (List Char)
  | [], _ => []
  | c :: t, 0 =>
    if dateTokenAt (c :: t) then (c :: t).take 10 :: extractDatesAux t 9
    else extractDatesAux t 0
  | _ :: t, k + 1 => extractDatesAux t k

/-- Model of `question.match(/(\d{4})-(\d{2})-(\d{2})/g) || []`: every
non-overlapping ten-character date-shaped token, in order of appearance. -/
def extractDateTokens (s : List Char) : List (List Char) := extractDatesAux s 0

/-- Day count since 1970-01-01 of a Gregorian date (proleptic). -/
def daysFromCivil (y : Int) (m d : Nat) : Int :=
  let y' : Int := if m ≤ 2 then y - 1 else y
  let era : Int := Int.fdiv y' 400
  let yoe : Int := y' - era * 400
  let mp : Int := if m > 2 then (m : Int) - 3 else (m : Int) + 9
  let doy : Int := (153 * mp + 2) / 5 + (d : Int) - 1
  let doe : Int := yoe * 365 + yoe / 4 - yoe / 100 + doy
  era * 146097 + doe - 719468

/-- Gregorian date of a day count since 1970-01-01. -/
def civilFromDays (z0 : Int) : Int × Nat × Nat :=
  let z : Int := z0 + 719468
  let era : Int := Int.fdiv z 146097
  let doe : Int := z - era * 146097
  let yoe : Int := (doe - doe / 1460 + doe / 36524 - doe / 146096) / 365
  let y : Int := yoe + era * 400
  let doy : Int := doe - (365 * yoe + yoe / 4 - yoe / 100)
  let mp : Int := (5 * doy + 2) / 153
  let d : Nat := (doy - (153 * mp + 2) / 5 + 1).toNat
  let m : Nat := (if mp < 10 then mp + 3 else mp - 9).toNat
  (if m ≤ 2 then y + 1 else y, m, d)

/-- Left-pad a decimal rendering with zeros to the given width. -/
def padNat (width n : Nat) : List Char :=
  let s := natChars n
  List.replicate (width - s.length) '0' ++ s

/-- `YYYY-MM-DD` rendering of a date, as `toISOString().split('T')[0]`
produces it for years 0-9999. -/
def formatYMD (y : Int) (m d : Nat) : List Char :=
  padNat 4 y.toNat ++ (("-").data) ++ padNat 2 m ++ (("-").data) ++ padNat 2 d

/-- `YYYY-MM-DD` rendering of a day count. -/
def formatDays (z : Int) : List Char :=
  match civilFromDays z with
  | (y, m, d) => formatYMD y m d

/-- Parse a `YYYY-MM-DD` string into components, as `new Date(todayStr)`
does for the strings `getCurrentDateInTimezone` produces (anything else
yields an Invalid Date, modelled as `none`). -/
def parseYMD (s : List Char) : Option (Nat × Nat × Nat) :=
  match s with
  | [y1, y2, y3, y4, h1, m1, m2, h2, d1, d2] =>
    if y1.isDigit && y2.isDigit && y3.isDigit && y4.isDigit &&
        h1 == '-' && m1.isDigit && m2.isDigit && h2 == '-' && d1.isDigit && d2.isDigit then
      let y := 1000 * digitVal y1 + 100 * digitVal y2 + 10 * digitVal y3 + digitVal y4
      let m := 10 * digitVal m1 + digitVal m2
      let d := 10 * digitVal d1 + digitVal d2
      if 1 ≤ m && m ≤ 12 && 1 ≤ d && d ≤ daysInMonth y m then some (y, m, d) else none
    else none
  | _ => none

/-- The `new Date(year, monthIndex, day)` two-digit-year quirk: years 0-99
are interpreted as 1900-1999. -/
def jsCtorYear (y : Nat) : Nat := if y < 100 then y + 1900 else y

/-- The keyword branches of `detectSingleDateFromQuestion` (services.js
lines 3275-3340): `today`, `yesterday`, `this week` (Sunday through today),
`last week`, `this month`, `last month`.  JavaScript `Date` day arithmetic is
modelled on day numbers with the host clock in UTC (the deployment
configuration under which `getDate`/`getDay`/`toISOString` agree). -/
def detectKeywordDate (lowerQ todayStr : List Char) : Option DateRangeE :=
  if containsSeg lowerQ (("today").data) then some ⟨todayStr, todayStr⟩
  else if containsSeg lowerQ (("yesterday").data) then
    match parseYMD todayStr with
    | some (y, m, d) =>
      let ds := formatDays (daysFromCivil (Int.ofNat y) m d - 1)
      some ⟨ds, ds⟩
    | none => none
  else if containsSeg lowerQ (("this week").data) then
    match parseYMD todayStr with
    | some (y, m, d) =>
      let z := daysFromCivil (Int.ofNat y) m d
      let weekday := Int.emod (z + 4) 7
      some ⟨formatDays (z - weekday), todayStr⟩
    | none => none
  else if containsSeg lowerQ (("last week").data) then
    match parseYMD todayStr with
    | some (y, m, d) =>
      let z := daysFromCivil (Int.ofNat y) m d
      let weekday := Int.emod (z + 4) 7
      let lastWeekEnd := z - weekday - 1
      some ⟨formatDays (lastWeekEnd - 6), formatDays lastWeekEnd⟩
    | none => none
  else if containsSeg lowerQ (("this month").data) then
    match parseYMD todayStr with
    | some (y, m, _) => some ⟨formatYMD (Int.ofNat (jsCtorYear y)) m 1, todayStr⟩
    | none => none
  else if containsSeg lowerQ (("last month").data) then
    match parseYMD todayStr with
    | some (y, m, _) =>
      let yc := jsCtorYear y
      let prev := if m == 1 then (yc - 1, 12) else (yc, m - 1)
      some ⟨formatYMD (Int.ofNat prev.1) prev.2 1,
        formatYMD (Int.ofNat prev.1) prev.2 (daysInMonth prev.1 prev.2)⟩
    | none => none
  else none

/-- Model of `detectSingleDateFromQuestion(question)` (services.js): explicit
`YYYY-MM-DD` tokens take priority (one valid token gives a same-day range,
two give the pair in order of appearance, more than two give first and last);
with no valid explicit token the keyword branches run against the current
date (`todayStr`, passed explicitly here in place of the source's
`getCurrentDateInTimezone` call). -/
def detectSingleDateFromQuestion (question todayStr : List Char) : Option DateRangeE :=
  let lowerQ := lowerL question
  let dateMatches := extractDateTokens question
  let dates :=
    if dateMatches.isEmpty then ([] : List (List Char))
    else dateMatches.filter validateDateFormat
  match dates with
  | [d] => some ⟨d, d⟩
  | [d1, d2] => some ⟨d1, d2⟩
  | d1 :: _ :: d3 :: rest => some ⟨d1, (d3 :: rest).getLastD d3⟩
  | [] => detectKeywordDate lowerQ todayStr

/-- C4: one valid explicit date in a question becomes both start and end of
the resolved range; exactly two valid explicit dates become start and end in
order of appearance, with no reordering even when the first sorts after the
second. -/
theorem detectSingleDate_explicit_dates :
    (∀ (q todayStr d : List Char),
      (extractDateTokens q).filter validateDateFormat = [d] →
      detectSingleDateFromQuestion q todayStr = some ⟨d, d⟩) ∧
    (∀ (q todayStr d1 d2 : List Char),
      (extractDateTokens q).filter validateDateFormat = [d1, d2] →
      detectSingleDateFromQuestion q todayStr = some ⟨d1, d2⟩) := by
  constructor
  · intro q todayStr d h
    have hne : (extractDateTokens q).isEmpty = false := by
      cases hm : extractDateTokens q with
      | nil =>
        rw [hm] at h
        cases h
      | cons a t => rfl
    unfold detectSingleDateFromQuestion
    simp [hne, h]
  · intro q todayStr d1 d2 h
    have hne : (extractDateTokens q).isEmpty = false := by
      cases hm : extractDateTokens q with
      | nil =>
        rw [hm] at h
        cases h
      | cons a t => rfl
    unfold detectSingleDateFromQuestion
    simp [hne, h]

/-- Witness for C4: a single explicit date, and a reversed two-date pair
(`2024-05-10` sorts after `2024-03-01`, and is still returned as start). -/
theorem detectSingleDate_explicit_dates_witness :
    detectSingleDateFromQuestion (("calls on 2024-03-15").data) (("2026-10-11").data) =
      some ⟨("2024-03-15").data, ("2024-03-15").data⟩ ∧
    detectSingleDateFromQuestion (("from 2024-05-10 to 2024-03-01").data)
        (("2026-10-11").data) =
      some ⟨("2024-05-10").data, ("2024-03-01").data⟩ := by
  constructor
  · exact detectSingleDate_explicit_dates.1 (("calls on 2024-03-15").data)
      (("2026-10-11").data) (("2024-03-15").data) (by decide)
  · exact detectSingleDate_explicit_dates.2 (("from 2024-05-10 to 2024-03-01").data)
      (("2026-10-11").data) (("2024-05-10").data) (("2024-03-01").data) (by decide)

-- ==================== PAYMENT ANALYZER (services.js) ========================

/-- One row of pricing query results.  Each field holds the value of the
source's `parseFloat(record.X) || 0` coercion, as an exact rational. -/
structure PricingRecord where
  ProcFee : Rat
  InsPayAmt : Rat
  WriteOff : Rat
  Adjustments : Rat
  Payments : Rat
deriving DecidableEq, Repr

/-- `remainingBalance = procFee - insPayment - writeOff - adjustment -
patPayment` (services.js line 731). -/
def remainingBalance (r : PricingRecord) : Rat :=
  r.ProcFee - r.InsPayAmt - r.WriteOff - r.Adjustments - r.Payments

/-- The `breakdown.paymentStatus` counters of `analyzePricingDetails`. -/
structure PaymentStatusCounts where
  fullyPaid : Nat := 0
  partiallyPaid : Nat := 0
  unpaid : Nat := 0
  zeroCharge : Nat := 0
deriving DecidableEq, Repr

/-- The `financial` block of `analyzePricingDetails`. -/
structure FinancialTotals where
  totalBilled : Rat := 0
  totalInsurancePaid : Rat := 0
  totalWriteOffs : Rat := 0
  totalAdjustments : Rat := 0
  totalPatientPayments : Rat := 0
  netPatientBalance : Rat := 0
  insuranceCoverage : Rat := 0
deriving DecidableEq, Repr

/-- The body of the per-record `forEach` of `analyzePricingDetails`
(services.js lines 725-755): accumulate the financial totals (adjustments
via `Math.abs`) and increment exactly one payment-status bucket following
the source's precedence. -/
def pricingStep (acc : FinancialTotals × PaymentStatusCounts) (record : PricingRecord) :
    FinancialTotals × PaymentStatusCounts :=
  let fin := acc.1
  let st := acc.2
  let fin' := { fin with
    totalBilled := fin.totalBilled + record.ProcFee
    totalInsurancePaid := fin.totalInsurancePaid + record.InsPayAmt
    totalWriteOffs := fin.totalWriteOffs + record.WriteOff
    totalAdjustments := fin.totalAdjustments + |record.Adjustments|
    totalPatientPayments := fin.totalPatientPayments + record.Payments }
  let st' :=
    if record.ProcFee = 0 then { st with zeroCharge := st.zeroCharge + 1 }
    else if remainingBalance record ≤ 0 then { st with fullyPaid := st.fullyPaid + 1 }
    else if 0 < record.InsPayAmt ∨ 0 < record.Payments ∨ 0 < record.WriteOff then
      { st with partiallyPaid := st.partiallyPaid + 1 }
    else { st with unpaid := st.unpaid + 1 }
  (fin', st')

/-- The claim-relevant result of `analyzePricingDetails`. -/
structure PricingAnalysis where
  patientNumber : Nat
  totalRecords : Nat
  financial : FinancialTotals
  paymentStatus : PaymentStatusCounts
deriving DecidableEq, Repr

/-- Model of `analyzePricingDetails(queryResults, patNum)` (services.js):
the empty-input `{success: false, ...}` early return is `none`; the
`dateRange`, per-year and per-procedure rollups and the summary /
recommendation texts are presentation-only and omitted; `insuranceCoverage`
keeps its 0 initialization unless `totalBilled > 0`, in which case it is
`totalInsurancePaid / totalBilled * 100` (the `toFixed(2)` string formatting
is dropped — the modelled value is the exact rational before rounding). -/
def analyzePricingDetails (queryResults : List PricingRecord) (patNum : Nat) :
    Option PricingAnalysis :=
  if queryResults.isEmpty then none
  else
    let acc := queryResults.foldl pricingStep (({} : FinancialTotals), ({} : PaymentStatusCounts))
    let fin := acc.1
    let net := fin.totalBilled - fin.totalInsurancePaid - fin.totalWriteOffs -
      fin.totalPatientPayments
    let coverage :=
      if 0 < fin.totalBilled then fin.totalInsurancePaid / fin.totalBilled * 100
      else fin.insuranceCoverage
    some { patientNumber := patNum
           totalRecords := queryResults.length
           financial := { fin with netPatientBalance := net, insuranceCoverage := coverage }
           paymentStatus := acc.2 }

theorem pricingFold_counts (rows : List PricingRecord) :
    ∀ (fin : FinancialTotals) (st : PaymentStatusCounts),
      (rows.foldl pricingStep (fin, st)).2.zeroCharge =
        st.zeroCharge + rows.countP (fun r => decide (r.ProcFee = 0)) ∧
      (rows.foldl pricingStep (fin, st)).2.fullyPaid =
        st.fullyPaid + rows.countP (fun r =>
          decide (¬ r.ProcFee = 0 ∧ remainingBalance r ≤ 0)) ∧
      (rows.foldl pricingStep (fin, st)).2.partiallyPaid =
        st.partiallyPaid + rows.countP (fun r =>
          decide (¬ r.ProcFee = 0 ∧ ¬ remainingBalance r ≤ 0 ∧
            (0 < r.InsPayAmt ∨ 0 < r.Payments ∨ 0 < r.WriteOff))) ∧
      (rows.foldl pricingStep (fin, st)).2.unpaid =
        st.unpaid + rows.countP (fun r =>
          decide (¬ r.ProcFee = 0 ∧ ¬ remainingBalance r ≤ 0 ∧
            ¬ (0 < r.InsPayAmt ∨ 0 < r.Payments ∨ 0 < r.WriteOff))) := by
  induction rows with
  | nil => intro fin st; simp
  | cons r rows ih =>
    intro fin st
    rw [List.foldl_cons]
    by_cases h1 : r.ProcFee = 0
    · have hst : (pricingStep (fin, st) r).2 = { st with zeroCharge := st.zeroCharge + 1 } := by
        simp [pricingStep, h1]
      obtain ⟨i1, i2, i3, i4⟩ := ih (pricingStep (fin, st) r).1 (pricingStep (fin, st) r).2
      rw [hst] at i1 i2 i3 i4
      refine ⟨?_, ?_, ?_, ?_⟩ <;>
        simp only [List.countP_cons, h1, decide_True, decide_False, not_true] <;>
        simp_all <;> omega
    · by_cases h2 : remainingBalance r ≤ 0
      · have hst : (pricingStep (fin, st) r).2 = { st with fullyPaid := st.fullyPaid + 1 } := by
          simp [pricingStep, h1, h2]
        obtain ⟨i1, i2, i3, i4⟩ := ih (pricingStep (fin, st) r).1 (pricingStep (fin, st) r).2
        rw [hst] at i1 i2 i3 i4
        refine ⟨?_, ?_, ?_, ?_⟩ <;>
          simp only [List.countP_cons, h1, h2] <;> simp_all <;> omega
      · by_cases h3 : 0 < r.InsPayAmt ∨ 0 < r.Payments ∨ 0 < r.WriteOff
        · have hst : (pricingStep (fin, st) r).2 =
              { st with partiallyPaid := st.partiallyPaid + 1 } := by
            simp [pricingStep, h1, h2, h3]
          obtain ⟨i1, i2, i3, i4⟩ := ih (pricingStep (fin, st) r).1 (pricingStep (fin, st) r).2
          rw [hst] at i1 i2 i3 i4
          refine ⟨?_, ?_, ?_, ?_⟩ <;>
            simp only [List.countP_cons, h1, h2, h3] <;> simp_all <;> omega
        · have hst : (pricingStep (fin, st) r).2 = { st with unpaid := st.unpaid + 1 } := by
            simp [pricingStep, h1, h2, h3]
          obtain ⟨i1, i2, i3, i4⟩ := ih (pricingStep (fin, st) r).1 (pricingStep (fin, st) r).2
          rw [hst] at i1 i2 i3 i4
          refine ⟨?_, ?_, ?_, ?_⟩ <;>
            simp only [List.countP_cons, h1, h2, h3] <;> simp_all <;> omega

theorem pricing_countP_partition (rows : List PricingRecord) :
    rows.countP (fun r => decide (r.ProcFee = 0)) +
      rows.countP (fun r => decide (¬ r.ProcFee = 0 ∧ remainingBalance r ≤ 0)) +
      rows.countP (fun r => decide (¬ r.ProcFee = 0 ∧ ¬ remainingBalance r ≤ 0 ∧
        (0 < r.InsPayAmt ∨ 0 < r.Payments ∨ 0 < r.WriteOff))) +
      rows.countP (fun r => decide (¬ r.ProcFee = 0 ∧ ¬ remainingBalance r ≤ 0 ∧
        ¬ (0 < r.InsPayAmt ∨ 0 < r.Payments ∨ 0 < r.WriteOff))) = rows.length := by
  induction rows with
  | nil => simp
  | cons r rows ih =>
    simp only [List.countP_cons, List.length_cons, decide_eq_true_eq]
    by_cases h1 : r.ProcFee = 0
    · rw [if_pos h1, if_neg (fun hc => hc.1 h1), if_neg (fun hc => hc.1 h1),
        if_neg (fun hc => hc.1 h1)]
      omega
    · by_cases h2 : remainingBalance r ≤ 0
      · rw [if_neg h1, if_pos ⟨h1, h2⟩, if_neg (fun hc => hc.2.1 h2),
          if_neg (fun hc => hc.2.1 h2)]
        omega
      · by_cases h3 : 0 < r.InsPayAmt ∨ 0 < r.Payments ∨ 0 < r.WriteOff
        · rw [if_neg h1, if_neg (fun hc => h2 hc.2), if_pos ⟨h1, h2, h3⟩,
            if_neg (fun hc => hc.2.2 h3)]
          omega
        · rw [if_neg h1, if_neg (fun hc => h2 hc.2), if_neg (fun hc => h3 hc.2.2),
            if_pos ⟨h1, h2, h3⟩]
          omega

theorem pricingFold_totals (rows : List PricingRecord) :
    ∀ (fin : FinancialTotals) (st : PaymentStatusCounts),
      (rows.foldl pricingStep (fin, st)).1.totalBilled =
        fin.totalBilled + (rows.map PricingRecord.ProcFee).sum ∧
      (rows.foldl pricingStep (fin, st)).1.totalInsurancePaid =
        fin.totalInsurancePaid + (rows.map PricingRecord.InsPayAmt).sum ∧
      (rows.foldl pricingStep (fin, st)).1.insuranceCoverage = fin.insuranceCoverage := by
  induction rows with
  | nil => intro fin st; simp
  | cons r rows ih =>
    intro fin st
    rw [List.foldl_cons]
    obtain ⟨i1, i2, i3⟩ := ih (pricingStep (fin, st) r).1 (pricingStep (fin, st) r).2
    simp only [Prod.mk.eta] at i1 i2 i3
    refine ⟨?_, ?_, ?_⟩
    · rw [i1]
      simp only [pricingStep, List.map_cons, List.sum_cons]
      ring
    · rw [i2]
      simp only [pricingStep, List.map_cons, List.sum_cons]
      ring
    · rw [i3]
      simp [pricingStep]

/-- C6: the payment analyzer increments exactly one of the four
payment-status buckets per row with the source's precedence (fee zero, else
settled balance, else any positive payment activity, else unpaid), so the
four counts sum to the number of rows. -/
theorem analyzePricingDetails_buckets (rows : List PricingRecord) (patNum : Nat)
    (a : PricingAnalysis) (h : analyzePricingDetails rows patNum = some a) :
    a.paymentStatus.zeroCharge + a.paymentStatus.fullyPaid +
      a.paymentStatus.partiallyPaid + a.paymentStatus.unpaid = rows.length ∧
    a.paymentStatus.zeroCharge = rows.countP (fun r => decide (r.ProcFee = 0)) ∧
    a.paymentStatus.fullyPaid = rows.countP (fun r =>
      decide (¬ r.ProcFee = 0 ∧ remainingBalance r ≤ 0)) ∧
    a.paymentStatus.partiallyPaid = rows.countP (fun r =>
      decide (¬ r.ProcFee = 0 ∧ ¬ remainingBalance r ≤ 0 ∧
        (0 < r.InsPayAmt ∨ 0 < r.Payments ∨ 0 < r.WriteOff))) ∧
    a.paymentStatus.unpaid = rows.countP (fun r =>
      decide (¬ r.ProcFee = 0 ∧ ¬ remainingBalance r ≤ 0 ∧
        ¬ (0 < r.InsPayAmt ∨ 0 < r.Payments ∨ 0 < r.WriteOff))) := by
  unfold analyzePricingDetails at h
  by_cases he : rows.isEmpty = true
  · rw [if_pos he] at h
    cases h
  · rw [if_neg he] at h
    have hst : a.paymentStatus =
        (rows.foldl pricingStep (({} : FinancialTotals), ({} : PaymentStatusCounts))).2 := by
      have := congrArg (fun o => o.map PricingAnalysis.paymentStatus) h.symm
      simpa using this
    obtain ⟨i1, i2, i3, i4⟩ :=
      pricingFold_counts rows ({} : FinancialTotals) ({} : PaymentStatusCounts)
    have hpart := pricing_countP_partition rows
    rw [hst]
    simp only [i1, i2, i3, i4]
    refine ⟨?_, by simp, by simp, by simp, by simp⟩
    simpa using hpart

/-- Witness for C6 on four rows hitting each bucket once. -/
theorem analyzePricingDetails_buckets_witness :
    analyzePricingDetails
        [⟨0, 0, 0, 0, 0⟩, ⟨50, 50, 0, 0, 0⟩, ⟨100, 30, 0, 0, 0⟩,
          (⟨80, 0, 0, 0, 0⟩ : PricingRecord)] 1 =
      some (⟨1, 4, ⟨230, 80, 0, 0, 0, 150, 800 / 23⟩,
        (⟨1, 1, 1, 1⟩ : PaymentStatusCounts)⟩ : PricingAnalysis) ∧
    (⟨1, 4, ⟨230, 80, 0, 0, 0, 150, 800 / 23⟩,
        (⟨1, 1, 1, 1⟩ : PaymentStatusCounts)⟩ : PricingAnalysis).paymentStatus.zeroCharge +
      (⟨1, 4, ⟨230, 80, 0, 0, 0, 150, 800 / 23⟩,
        (⟨1, 1, 1, 1⟩ : PaymentStatusCounts)⟩ : PricingAnalysis).paymentStatus.fullyPaid +
      (⟨1, 4, ⟨230, 80, 0, 0, 0, 150, 800 / 23⟩,
        (⟨1, 1, 1, 1⟩ : PaymentStatusCounts)⟩ : PricingAnalysis).paymentStatus.partiallyPaid +
      (⟨1, 4, ⟨230, 80, 0, 0, 0, 150, 800 / 23⟩,
        (⟨1, 1, 1, 1⟩ : PaymentStatusCounts)⟩ : PricingAnalysis).paymentStatus.unpaid = 4 := by
  have h : analyzePricingDetails
      [⟨0, 0, 0, 0, 0⟩, ⟨50, 50, 0, 0, 0⟩, ⟨100, 30, 0, 0, 0⟩,
        (⟨80, 0, 0, 0, 0⟩ : PricingRecord)] 1 =
      some (⟨1, 4, ⟨230, 80, 0, 0, 0, 150, 800 / 23⟩,
        (⟨1, 1, 1, 1⟩ : PaymentStatusCounts)⟩ : PricingAnalysis) := by
    norm_num [analyzePricingDetails, pricingStep, remainingBalance]
  refine ⟨h, ?_⟩
  exact (analyzePricingDetails_buckets _ 1 _ h).1

/-- C7 counterexample: a single row with a negative insurance payment
(`InsPayAmt = -50` under `parseFloat`) drives `insuranceCoverage` to `-50`
while `totalBilled = 100 > 0`, so the claimed range `[0, 100+]` does not
hold for every input row set. -/
theorem insuranceCoverage_negative_cex :
    (analyzePricingDetails [(⟨100, -50, 0, 0, 0⟩ : PricingRecord)] 4521).map
        (fun a => (a.financial.totalBilled, a.financial.insuranceCoverage)) =
      some ((100 : Rat), (-50 : Rat)) ∧
    (0 : Rat) < 100 ∧ (-50 : Rat) < 0 := by
  refine ⟨?_, by norm_num, by norm_num⟩
  norm_num [analyzePricingDetails, pricingStep]

/-- C7 amended: the analyzer never divides by zero — when `totalBilled = 0`
the `insuranceCoverage` field keeps its zero default (the division is never
performed), and when `totalBilled > 0` the division is performed and the
value is nonnegative (and free to exceed 100) provided the rows' insurance
payment amounts are nonnegative, as real payment data's are. -/
theorem insuranceCoverage_amended (rows : List PricingRecord) (patNum : Nat)
    (a : PricingAnalysis) (h : analyzePricingDetails rows patNum = some a) :
    (a.financial.totalBilled = 0 → a.financial.insuranceCoverage = 0) ∧
    ((∀ r ∈ rows, 0 ≤ r.InsPayAmt) → 0 < a.financial.totalBilled →
      0 ≤ a.financial.insuranceCoverage) := by
  unfold analyzePricingDetails at h
  by_cases he : rows.isEmpty = true
  · rw [if_pos he] at h
    cases h
  · rw [if_neg he] at h
    have hfin := congrArg (fun o => o.map PricingAnalysis.financial) h.symm
    simp only [Option.map_some'] at hfin
    injection hfin with hfin
    obtain ⟨t1, t2, t3⟩ :=
      pricingFold_totals rows ({} : FinancialTotals) ({} : PaymentStatusCounts)
    have hball : a.financial.totalBilled =
        (rows.foldl pricingStep (({} : FinancialTotals),
          ({} : PaymentStatusCounts))).1.totalBilled := by
      rw [hfin]
    have hcov : a.financial.insuranceCoverage =
        (if 0 < (rows.foldl pricingStep (({} : FinancialTotals),
            ({} : PaymentStatusCounts))).1.totalBilled then
          (rows.foldl pricingStep (({} : FinancialTotals),
            ({} : PaymentStatusCounts))).1.totalInsurancePaid /
            (rows.foldl pricingStep (({} : FinancialTotals),
              ({} : PaymentStatusCounts))).1.totalBilled * 100
        else (rows.foldl pricingStep (({} : FinancialTotals),
          ({} : PaymentStatusCounts))).1.insuranceCoverage) := by
      rw [hfin]
    constructor
    · intro hb0
      rw [hball] at hb0
      have hneg : ¬ (0 < (rows.foldl pricingStep (({} : FinancialTotals),
          ({} : PaymentStatusCounts))).1.totalBilled) := by
        rw [hb0]
        exact lt_irrefl 0
      rw [hcov, if_neg hneg, t3]
    · intro hnn hpos
      rw [hball] at hpos
      rw [hcov, if_pos hpos, t2]
      have hsum : 0 ≤ (rows.map PricingRecord.InsPayAmt).sum := by
        apply List.sum_nonneg
        intro x hx
        obtain ⟨r, hr, hrx⟩ := List.mem_map.mp hx
        rw [← hrx]
        exact hnn r hr
      have hins : 0 ≤ ({} : FinancialTotals).totalInsurancePaid +
          (rows.map PricingRecord.InsPayAmt).sum := by
        simpa using hsum
      exact mul_nonneg (div_nonneg hins (le_of_lt hpos)) (by norm_num)

/-- Witness for C7 amended at a one-row input with nonnegative payments. -/
theorem insuranceCoverage_amended_witness :
    (0 : Rat) ≤ ((⟨7, 1, ⟨100, 30, 0, 0, 0, 70, 30⟩,
      (⟨0, 1, 0, 0⟩ : PaymentStatusCounts)⟩ : PricingAnalysis)).financial.insuranceCoverage := by
  have h : analyzePricingDetails [(⟨100, 30, 0, 0, 0⟩ : PricingRecord)] 7 =
      some (⟨7, 1, ⟨100, 30, 0, 0, 0, 70, 30⟩,
        (⟨0, 1, 0, 0⟩ : PaymentStatusCounts)⟩ : PricingAnalysis) := by
    norm_num [analyzePricingDetails, pricingStep, remainingBalance]
  refine (insuranceCoverage_amended _ 7 _ h).2 ?_ (by norm_num)
  intro r hr
  have : r = (⟨100, 30, 0, 0, 0⟩ : PricingRecord) := by simpa using hr
  rw [this]
  norm_num

-- ==================== CALL DIRECTION COUNTER (services.js) ==================

/-- One AI-Voice call record, restricted to the two direction-carrying
fields `countCallsByDirection` reads; the empty string models a
missing/falsy field. -/
structure CallRecord where
  callDirection : List Char
  call_type : List Char
deriving DecidableEq, Repr

/-- `(call.callDirection || call.call_type || '').toLowerCase()`
(services.js line 3156). -/
def callDirectionOf (call : CallRecord) : List Char :=
  lowerL (if call.callDirection.isEmpty then call.call_type else call.callDirection)

/-- The body of the per-call `forEach` of `countCallsByDirection`
(services.js lines 3155-3165), accumulating
`(inboundCount, outboundCount, unknownCount)`. -/
def countDirStep (acc : Nat × Nat × Nat) (call : CallRecord) : Nat × Nat × Nat :=
  let direction := callDirectionOf call
  if direction = (("inbound").data) ∨ direction = (("incoming").data) then
    (acc.1 + 1, acc.2.1, acc.2.2)
  else if direction = (("outbound").data) ∨ direction = (("outgoing").data) then
    (acc.1, acc.2.1 + 1, acc.2.2)
  else (acc.1, acc.2.1, acc.2.2 + 1)

/-- The claim-relevant result of `countCallsByDirection`. -/
structure CallDirectionStats where
  total : Nat
  inbound : Nat
  outbound : Nat
  unknown : Nat
  breakdown : List (List Char × Nat)
deriving DecidableEq, Repr

/-- Model of `countCallsByDirection(rawCalls)` (services.js): empty input
short-circuits to all-zero stats; otherwise each call increments exactly one
of the three counters.  The `inboundPercentage`/`outboundPercentage`
`toFixed(1)` strings are presentation-only and omitted. -/
def countCallsByDirection (rawCalls : List CallRecord) : CallDirectionStats :=
  if rawCalls.isEmpty then
    { total := 0, inbound := 0, outbound := 0, unknown := 0, breakdown := [] }
  else
    let counts := rawCalls.foldl countDirStep (0, 0, 0)
    { total := rawCalls.length
      inbound := counts.1
      outbound := counts.2.1
      unknown := counts.2.2
      breakdown := [((("Inbound").data), counts.1), ((("Outbound").data), counts.2.1),
        ((("Unknown").data), counts.2.2)] }

theorem countDirFold (calls : List CallRecord) :
    ∀ x y z : Nat,
      (calls.foldl countDirStep (x, y, z)).1 =
        x + calls.countP (fun c => decide (callDirectionOf c = (("inbound").data) ∨
          callDirectionOf c = (("incoming").data))) ∧
      (calls.foldl countDirStep (x, y, z)).2.1 =
        y + calls.countP (fun c =>
          decide (¬ (callDirectionOf c = (("inbound").data) ∨
              callDirectionOf c = (("incoming").data)) ∧
            (callDirectionOf c = (("outbound").data) ∨
              callDirectionOf c = (("outgoing").data)))) ∧
      (calls.foldl countDirStep (x, y, z)).2.2 =
        z + calls.countP (fun c =>
          decide (¬ (callDirectionOf c = (("inbound").data) ∨
              callDirectionOf c = (("incoming").data)) ∧
            ¬ (callDirectionOf c = (("outbound").data) ∨
              callDirectionOf c = (("outgoing").data)))) := by
  induction calls with
  | nil => intro x y z; simp
  | cons c calls ih =>
    intro x y z
    rw [List.foldl_cons]
    rw [List.countP_cons, List.countP_cons, List.countP_cons]
    by_cases h1 : callDirectionOf c = (("inbound").data) ∨
        callDirectionOf c = (("incoming").data)
    · have hstep : countDirStep (x, y, z) c = (x + 1, y, z) := by
        simp [countDirStep, h1]
      rw [hstep]
      obtain ⟨i1, i2, i3⟩ := ih (x + 1) y z
      rw [i1, i2, i3, if_pos (decide_eq_true h1),
        if_neg (fun hc => (of_decide_eq_true hc).1 h1),
        if_neg (fun hc => (of_decide_eq_true hc).1 h1)]
      refine ⟨by omega, by omega, by omega⟩
    · by_cases h2 : callDirectionOf c = (("outbound").data) ∨
          callDirectionOf c = (("outgoing").data)
      · have hstep : countDirStep (x, y, z) c = (x, y + 1, z) := by
          simp [countDirStep, h1, h2]
        rw [hstep]
        obtain ⟨i1, i2, i3⟩ := ih x (y + 1) z
        rw [i1, i2, i3, if_neg (fun hc => h1 (of_decide_eq_true hc)),
          if_pos (decide_eq_true ⟨h1, h2⟩),
          if_neg (fun hc => (of_decide_eq_true hc).2 h2)]
        refine ⟨by omega, by omega, by omega⟩
      · have hstep : countDirStep (x, y, z) c = (x, y, z + 1) := by
          simp [countDirStep, h1, h2]
        rw [hstep]
        obtain ⟨i1, i2, i3⟩ := ih x y (z + 1)
        rw [i1, i2, i3, if_neg (fun hc => h1 (of_decide_eq_true hc)),
          if_neg (fun hc => h2 (of_decide_eq_true hc).2),
          if_pos (decide_eq_true ⟨h1, h2⟩)]
        refine ⟨by omega, by omega, by omega⟩

theorem countDir_countP_partition (calls : List CallRecord) :
    calls.countP (fun c => decide (callDirectionOf c = (("inbound").data) ∨
        callDirectionOf c = (("incoming").data))) +
      calls.countP (fun c =>
        decide (¬ (callDirectionOf c = (("inbound").data) ∨
            callDirectionOf c = (("incoming").data)) ∧
          (callDirectionOf c = (("outbound").data) ∨
            callDirectionOf c = (("outgoing").data)))) +
      calls.countP (fun c =>
        decide (¬ (callDirectionOf c = (("inbound").data) ∨
            callDirectionOf c = (("incoming").data)) ∧
          ¬ (callDirectionOf c = (("outbound").data) ∨
            callDirectionOf c = (("outgoing").data)))) = calls.length := by
  induction calls with
  | nil => simp
  | cons c calls ih =>
    rw [List.countP_cons, List.countP_cons, List.countP_cons, List.length_cons]
    by_cases h1 : callDirectionOf c = (("inbound").data) ∨
        callDirectionOf c = (("incoming").data)
    · rw [if_pos (decide_eq_true h1),
        if_neg (fun hc => (of_decide_eq_true hc).1 h1),
        if_neg (fun hc => (of_decide_eq_true hc).1 h1)]
      omega
    · by_cases h2 : callDirectionOf c = (("outbound").data) ∨
          callDirectionOf c = (("outgoing").data)
      · rw [if_neg (fun hc => h1 (of_decide_eq_true hc)),
          if_pos (decide_eq_true ⟨h1, h2⟩),
          if_neg (fun hc => (of_decide_eq_true hc).2 h2)]
        omega
      · rw [if_neg (fun hc => h1 (of_decide_eq_true hc)),
          if_neg (fun hc => h2 (of_decide_eq_true hc).2),
          if_pos (decide_eq_true ⟨h1, h2⟩)]
        omega

/-- C10: `countCallsByDirection` partitions its input — every call is
counted in exactly one of the inbound (`inbound`/`incoming`), outbound
(`outbound`/`outgoing`) or unknown buckets, the three counts sum to `total`,
and `total` is the length of the input list. -/
theorem countCallsByDirection_partition (calls : List CallRecord) :
    (countCallsByDirection calls).total = calls.length ∧
    (countCallsByDirection calls).inbound + (countCallsByDirection calls).outbound +
      (countCallsByDirection calls).unknown = (countCallsByDirection calls).total ∧
    (countCallsByDirection calls).inbound =
      calls.countP (fun c => decide (callDirectionOf c = (("inbound").data) ∨
        callDirectionOf c = (("incoming").data))) ∧
    (countCallsByDirection calls).outbound =
      calls.countP (fun c =>
        decide (¬ (callDirectionOf c = (("inbound").data) ∨
            callDirectionOf c = (("incoming").data)) ∧
          (callDirectionOf c = (("outbound").data) ∨
            callDirectionOf c = (("outgoing").data)))) ∧
    (countCallsByDirection calls).unknown =
      calls.countP (fun c =>
        decide (¬ (callDirectionOf c = (("inbound").data) ∨
            callDirectionOf c = (("incoming").data)) ∧
          ¬ (callDirectionOf c = (("outbound").data) ∨
            callDirectionOf c = (("outgoing").data)))) := by
  by_cases he : calls.isEmpty = true
  · have h0 : calls = [] := by
      cases calls with
      | nil => rfl
      | cons a t => cases he
    rw [h0]
    refine ⟨rfl, rfl, rfl, rfl, rfl⟩
  · obtain ⟨i1, i2, i3⟩ := countDirFold calls 0 0 0
    have hpart := countDir_countP_partition calls
    unfold countCallsByDirection
    rw [if_neg he]
    refine ⟨rfl, ?_, by simpa using i1, by simpa using i2, by simpa using i3⟩
    show (calls.foldl countDirStep (0, 0, 0)).1 + (calls.foldl countDirStep (0, 0, 0)).2.1 +
        (calls.foldl countDirStep (0, 0, 0)).2.2 = calls.length
    rw [i1, i2, i3]
    simpa using hpart

/-! ### Response formatter (`formatSQLResults`, services.js:1231-1318) and the
note-summary / pricing-from-notes query detectors (services.js:920-972). -/

/-- Model of `isNoteSummaryQuery` (services.js:920-934): the lowercased
question contains one of eight fixed summary-keyword phrases. -/
def isNoteSummaryQuery (question : List Char) : Bool :=
  let lowerQ := lowerL question
  [ ("summarize notes").data,
    ("summarize all notes").data,
    ("summary of notes").data,
    ("analyze notes").data,
    ("review notes").data,
    ("overview of notes").data,
    ("what do the notes say").data,
    ("tell me about the notes").data ].any (fun keyword => containsSeg lowerQ keyword)

/-- JavaScript word character (`\w` = `[A-Za-z0-9_]`), as used by the `\b`
assertion. -/
def jsIsWordChar (c : Char) : Bool :=
  c.isAlpha || c.isDigit || c = '_'

/-- Scanner for the left alternative `\bnote` of `/\bnote|notes\b/i` over the
lowercased question: a position starts a match when the previous character is
not a word character (or the position is the start of the string, `prevW`
initially `false`) and the text `note` begins there. -/
def scanBNote : Bool → List Char → Bool
  | _, [] => false
  | prevW, c :: t =>
    (!prevW && listStartsWith (c :: t) (("note").data)) || scanBNote (jsIsWordChar c) t

/-- Scanner for the right alternative `notes\b` of `/\bnote|notes\b/i` over the
lowercased question: the text `notes` begins at a position and the character
after it (if any) is not a word character. -/
def scanNotesB : List Char → Bool
  | [] => false
  | c :: t =>
    (listStartsWith (c :: t) (("notes").data) &&
      (match (c :: t).drop 5 with
       | [] => true
       | d :: _ => !jsIsWordChar d)) || scanNotesB t

/-- Model of `/\bnote|notes\b/i.test(question)` (services.js:968). The regex
parses as the alternation `(\bnote)|(notes\b)`; the case-insensitive flag is
modelled by matching the lowercase patterns against the lowercased question
(ASCII lowering preserves word-character status). -/
def hasNoteReference (question : List Char) : Bool :=
  scanBNote false (lowerL question) || scanNotesB (lowerL question)

/-- Model of `/pricing|price|cost|fee|charge|payment|bill/i.test(question)`
(services.js:969): a plain substring alternation. -/
def hasPricingKeywordNotes (question : List Char) : Bool :=
  [ ("pricing").data, ("price").data, ("cost").data, ("fee").data,
    ("charge").data, ("payment").data, ("bill").data ].any
    (fun k => containsSeg (lowerL question) k)

/-- Model of `isPricingFromNotesQuery` (services.js:964-972). -/
def isPricingFromNotesQuery (question : List Char) : Bool :=
  hasNoteReference question && hasPricingKeywordNotes question

/-- A JavaScript row value as the formatter probes it: an object (with its
`Object.keys` column-name list) or anything that fails the
`typeof rows[0] === 'object'` / truthiness test at services.js:1283. -/
inductive RowValue where
  | obj (fields : List (List Char))
  | nonObj
deriving DecidableEq

/-- The value the formatter uses as its row set: a JavaScript array of rows or
a non-array value (which `Array.isArray` rejects at services.js:1259). -/
inductive JSRowsValue where
  | arr (rows : List RowValue)
  | nonArray
deriving DecidableEq

/-- A truthy `sqlResults.data` value: `inner` is its `.data` property when that
property is truthy (`none` when falsy or absent), and `self` is the value
itself viewed as a potential row array, so `sqlResults.data.data ||
sqlResults.data` (services.js:1255) is `inner.getD self`. -/
structure SQLDataE where
  inner : Option JSRowsValue
  self : JSRowsValue
deriving DecidableEq

/-- The fields of `sqlResults` the formatter reads: the `success` flag and the
`data` value (`none` when `sqlResults.data` is falsy). -/
structure SQLResultsE where
  success : Bool
  data : Option SQLDataE
deriving DecidableEq

/-- Model of `rows = sqlResults.data.data || sqlResults.data`
(services.js:1255). -/
def rowsOf (d : SQLDataE) : JSRowsValue :=
  d.inner.getD d.self

/-- The literal zero-records message template of services.js:1261-1278, with
the SQL query text interpolated where the template writes the placeholder for
`sqlQuery`. -/
def noResultsMessage (sqlQuery : List Char) : List Char :=
  ("## 📊 Query Results\n\n**Status:** ✅ Query executed successfully\n\n**Records Found:** 0\n\n### Possible Reasons:\n- The PatNum doesn't exist in the database\n- The specified conditions returned no matches  \n- The table is empty\n- PatNum might need to be a number instead of a string\n\n💡 **Tip:** Try removing quotes from PatNum values (use `PatNum = 123` instead of `PatNum = '123'`)\n\n### SQL Query:\n```sql\n").data
    ++ sqlQuery ++ ("\n```").data

/-- Model of `columns.some(col => col === 'Note' || col === 'NoteType' ||
col.toLowerCase().includes('note'))` (services.js:1308-1310). -/
def hasNoteColumns (columns : List (List Char)) : Bool :=
  columns.any (fun col =>
    col == ("Note").data || col == ("NoteType").data ||
      containsSeg (lowerL col) (("note").data))

/-- The formatter's outcome, one constructor per `return` path of
`formatSQLResults`: the execution-failure report, the zero-records message,
the unexpected-data-format report, the asynchronous AI note-summary dispatch
(`generateNoteSummary`, with its pricing-focus flag), or the ordinary tabular
formatting of the rows. -/
inductive FormatOutcome where
  | executionFailure (sql : List Char)
  | noResults (msg : List Char)
  | invalidStructure (rows : List RowValue) (sql : List Char)
  | noteSummaryDispatch (pricingFocused : Bool) (rows : List RowValue) (sql : List Char)
  | tabularFormat (rows : List RowValue) (sql : List Char)
deriving DecidableEq

/-- The body of `formatSQLResults` from the row-set check on
(services.js:1259-1318), as a function of the resolved row value. -/
def formatRows (rows : JSRowsValue) (sqlQuery originalQuestion : List Char) : FormatOutcome :=
  match rows with
  | JSRowsValue.nonArray => FormatOutcome.noResults (noResultsMessage sqlQuery)
  | JSRowsValue.arr [] => FormatOutcome.noResults (noResultsMessage sqlQuery)
  | JSRowsValue.arr (r0 :: rest) =>
    match r0 with
    | RowValue.nonObj => FormatOutcome.invalidStructure (r0 :: rest) sqlQuery
    | RowValue.obj fields =>
      if (isNoteSummaryQuery originalQuestion || isPricingFromNotesQuery originalQuestion)
          && hasNoteColumns fields then
        FormatOutcome.noteSummaryDispatch (isPricingFromNotesQuery originalQuestion)
          (r0 :: rest) sqlQuery
      else
        FormatOutcome.tabularFormat (r0 :: rest) sqlQuery

/-- Model of `formatSQLResults` (services.js:1231-1318). -/
def formatSQLResults (sqlResults : SQLResultsE) (sqlQuery originalQuestion : List Char) :
    FormatOutcome :=
  match sqlResults.success, sqlResults.data with
  | false, _ => FormatOutcome.executionFailure sqlQuery
  | true, none => FormatOutcome.executionFailure sqlQuery
  | true, some d => formatRows (rowsOf d) sqlQuery originalQuestion

theorem formatRows_dispatch_head (rv : JSRowsValue) (sqlQuery originalQuestion : List Char)
    (f : Bool) (rows : List RowValue) (sql : List Char)
    (h : formatRows rv sqlQuery originalQuestion
      = FormatOutcome.noteSummaryDispatch f rows sql) :
    ∃ fields rest, rows = RowValue.obj fields :: rest := by
  cases rv with
  | nonArray => exact absurd h (by simp [formatRows])
  | arr l =>
    cases l with
    | nil => exact absurd h (by simp [formatRows])
    | cons r0 rest =>
      cases r0 with
      | nonObj => exact absurd h (by simp [formatRows])
      | obj fields =>
        simp only [formatRows] at h
        by_cases hc : ((isNoteSummaryQuery originalQuestion
            || isPricingFromNotesQuery originalQuestion) && hasNoteColumns fields) = true
        · rw [if_pos hc] at h
          injection h with h1 h2 h3
          exact ⟨fields, rest, h2.symm⟩
        · rw [if_neg hc] at h
          exact absurd h (by simp)

/-- C9: for a note-summary question whose query executed successfully but
whose resolved row set is empty or not an array, the formatter returns the
zero-records explanation, that explanation contains the literal SQL query
text, and the AI note-summary dispatch is never the outcome; moreover the
note-summary dispatch can only ever carry a row list whose head is an object
row. -/
theorem formatSQLResults_empty_noteSummary (sqlResults : SQLResultsE)
    (sqlQuery originalQuestion : List Char)
    (hq : isNoteSummaryQuery originalQuestion = true)
    (hs : sqlResults.success = true) :
    (∀ d : SQLDataE, sqlResults.data = some d →
      (rowsOf d = JSRowsValue.arr [] ∨ rowsOf d = JSRowsValue.nonArray) →
      formatSQLResults sqlResults sqlQuery originalQuestion
          = FormatOutcome.noResults (noResultsMessage sqlQuery)
        ∧ containsSeg (noResultsMessage sqlQuery) sqlQuery = true)
    ∧ (∀ (f : Bool) (rows : List RowValue) (sql : List Char),
        formatSQLResults sqlResults sqlQuery originalQuestion
            = FormatOutcome.noteSummaryDispatch f rows sql →
        ∃ fields rest, rows = RowValue.obj fields :: rest) := by
  obtain ⟨s, dt⟩ := sqlResults
  have hs' : s = true := hs
  subst hs'
  constructor
  · intro d hd hrows
    have hd' : dt = some d := hd
    subst hd'
    have hfr : formatSQLResults ⟨true, some d⟩ sqlQuery originalQuestion
        = formatRows (rowsOf d) sqlQuery originalQuestion := rfl
    have hmsg : containsSeg (noResultsMessage sqlQuery) sqlQuery = true := by
      unfold noResultsMessage
      exact containsSeg_sandwich _ _ _
    rcases hrows with h | h <;> rw [hfr, h] <;> exact ⟨rfl, hmsg⟩
  · intro f rows sql hout
    cases dt with
    | none => exact absurd hout (by simp [formatSQLResults])
    | some d =>
      exact formatRows_dispatch_head (rowsOf d) sqlQuery originalQuestion f rows sql hout

theorem formatSQLResults_empty_noteSummary_witness :
    isNoteSummaryQuery (("summarize notes for patnum = 4521").data) = true
    ∧ SQLResultsE.success ⟨true, some ⟨some (JSRowsValue.arr []), JSRowsValue.nonArray⟩⟩ = true
    ∧ formatSQLResults ⟨true, some ⟨some (JSRowsValue.arr []), JSRowsValue.nonArray⟩⟩
        (("SELECT Note FROM commlog WHERE PatNum = 4521").data)
        (("summarize notes for patnum = 4521").data)
        = FormatOutcome.noResults
            (noResultsMessage (("SELECT Note FROM commlog WHERE PatNum = 4521").data))
    ∧ containsSeg
        (noResultsMessage (("SELECT Note FROM commlog WHERE PatNum = 4521").data))
        (("SELECT Note FROM commlog WHERE PatNum = 4521").data) = true := by
  refine ⟨by decide, rfl, ?_⟩
  exact (formatSQLResults_empty_noteSummary
    ⟨true, some ⟨some (JSRowsValue.arr []), JSRowsValue.nonArray⟩⟩
    (("SELECT Note FROM commlog WHERE PatNum = 4521").data)
    (("summarize notes for patnum = 4521").data) (by decide) rfl).1
    ⟨some (JSRowsValue.arr []), JSRowsValue.nonArray⟩ rfl (Or.inl rfl)


end PXdev
